import Mathlib

/-!
Verification development for `print_labels.py` (totescan-label-printer).

The Python source is shallowly embedded: Python `str` values are Lean
`String`s (with list-of-char workers where proofs need them), CSV rows are
`List String`, the `totes` dict is an association list preserving insertion
order, fallible Python code (uncaught `IndexError`/`TypeError`) is embedded
in `Except Unit`, and ReportLab's `pdfmetrics.stringWidth` is an injected
per-character width function into `ℚ` (summed over the characters of a
string, which is how `stringWidth` computes).
-/

namespace PrintLabels

/-! ## String primitives (models of Python `str` methods) -/

/-- Model of Python `s.strip()` on a char list: drop whitespace from both ends.
(Python strips Unicode whitespace; `Char.isWhitespace` covers the ASCII cases
exercised here.) -/
def pyStripL (l : List Char) : List Char :=
  ((l.dropWhile Char.isWhitespace).reverse.dropWhile Char.isWhitespace).reverse

/-- Model of Python `s.strip()`. -/
def pyStrip (s : String) : String := String.mk (pyStripL s.data)

/-- Model of Python `s.strip('﻿')`: drop BOM chars from both ends. -/
def stripFEFFL (l : List Char) : List Char :=
  ((l.dropWhile (fun c => c = '﻿')).reverse.dropWhile (fun c => c = '﻿')).reverse

/-- Worker for Python `s.split()` (split on whitespace runs, dropping empty
pieces), with an accumulator holding the current word reversed. -/
def splitWSAux : List Char → List Char → List (List Char)
  | [], acc => if acc.isEmpty then [] else [acc.reverse]
  | c :: cs, acc =>
    if c.isWhitespace then
      if acc.isEmpty then splitWSAux cs [] else acc.reverse :: splitWSAux cs []
    else splitWSAux cs (c :: acc)

/-- Model of Python `s.split()` on a char list. -/
def splitWSL (l : List Char) : List (List Char) := splitWSAux l []

/-- Model of Python `s.split()` (no separator argument). -/
def pySplitStr (s : String) : List String := (splitWSL s.data).map String.mk

/-- Model of Python `needle in hay` (substring containment). -/
def containsSubstr (needle hay : String) : Bool :=
  (List.range (hay.data.length + 1)).any fun i => needle.data.isPrefixOf (hay.data.drop i)

/-- Model of Python `s.startswith(p)`. -/
def pyStartsWith (p s : String) : Bool := p.data.isPrefixOf s.data

/-- Model of Python `int(s)` for the string case: optional surrounding
whitespace, an optional sign, then one or more ASCII digits; `none` when the
string is not parseable that way (Python's extra forms — underscores,
non-ASCII digits — are outside the inputs this program sees). -/
def pyIntParse? (s : String) : Option Int :=
  match pyStripL s.data with
  | [] => none
  | c :: rest =>
    let digits := if c = '-' ∨ c = '+' then rest else c :: rest
    if digits.isEmpty ∨ ¬ digits.all Char.isDigit then none
    else
      let n : Nat := digits.foldl (fun a d => 10 * a + (d.toNat - 48)) 0
      some (if c = '-' then -(n : Int) else (n : Int))

/-- Code-point lexicographic order on char lists: the order Python's `sorted`
uses on `str`. -/
def listLe : List Char → List Char → Bool
  | [], _ => true
  | _ :: _, [] => false
  | a :: as, b :: bs =>
    if a < b then true
    else if b < a then false
    else listLe as bs

/-- Python's `<=` on `str` (code-point lexicographic). -/
def pyStrLe (s t : String) : Bool := listLe s.data t.data

/-- Model of Python `sorted` on a list of strings. -/
def pySorted (l : List String) : List String := l.mergeSort pyStrLe

/-! ## Record model (`ToteItem`, `Tote`) -/

/-- Embeds the `ToteItem` dataclass. -/
structure ToteItem where
  title : String
  description : String := ""
  quantity : Int := 1
  image_url : Option String := none
deriving DecidableEq, Repr

/-- Embeds the `Tote` dataclass. -/
structure Tote where
  tote_id : String
  title : String := ""
  location : String := ""
  qrdata : Option String := none
  items : List ToteItem := []
  parent_id : Option String := none
  children : List String := []
deriving DecidableEq, Repr

/-- Embeds `Tote.add_item`. The quantity argument is the raw CSV cell
(`read_csvs` passes `qty_raw`, a string); `int(quantity)` is `pyIntParse?`,
and any parse failure (the `except` arm) defaults the quantity to 1. -/
def Tote.add_item (t : Tote) (title : String) (description : String)
    (quantity : Option String) (image_url : Option String) : Tote :=
  if title = "" ∧ description = "" then t
  else
    let qty : Int :=
      match quantity with
      | none => 1
      | some q =>
        if q = "" ∨ q = " " then 1
        else
          match pyIntParse? q with
          | some n => n
          | none => 1
    let img : Option String :=
      match image_url with
      | some u => if u = "" then none else some u
      | none => none
    { t with items := t.items ++
        [{ title := pyStrip title, description := pyStrip description,
           quantity := qty, image_url := img }] }

/-! ## CSV ingestion (`read_csvs` and helpers) -/

/-- The canonical primary header (`PRIMARY_HEADER` in the source). -/
def PRIMARY_HEADER : List String :=
  ["PROFILE", "TOTE ID", "PARENT TOTE ID", "QRDATA", "TOTE LOCATION",
   "TOTE TITLE", "ITEM TITLE", "ITEM DESCRIPTION", "UPC", "ITEM QUANTITY",
   "IMAGES", "CREATED", "UPDATED", "ITEM URL"]

/-- The reduced header of the "empty totes" section (`EMPTY_HEADER`). -/
def EMPTY_HEADER : List String :=
  ["PROFILE", "TOTE ID", "TOTE LOCATION", "TOTE TITLE"]

/-- The parser's section state (the `current_mode` strings in the source). -/
inductive Mode where
  | UNKNOWN
  | PRIMARY
  | EMPTY
  | EMPTY_PENDING_HEADER
deriving DecidableEq, Repr

/-- The normalisation `sniff_headers` applies to each cell:
`c.strip().strip('﻿')`. -/
def normHeaderCell (c : String) : String := String.mk (stripFEFFL (pyStrip c).data)

/-- Embeds `sniff_headers` (returns `UNKNOWN` where the source returns the
string `"UNKNOWN"`). -/
def sniff_headers (line : List String) : Mode :=
  let norm := line.map normHeaderCell
  if PRIMARY_HEADER.length ≤ norm.length ∧
      (["TOTE ID", "QRDATA", "ITEM TITLE", "ITEM QUANTITY"].all fun h => norm.contains h) then
    .PRIMARY
  else if norm.length = EMPTY_HEADER.length ∧ (EMPTY_HEADER.all fun h => norm.contains h) then
    .EMPTY
  else .UNKNOWN

/-- Embeds `{name: row.index(name) for name in row}`: each distinct cell maps
to its first index (duplicate entries in the association list carry the same
value, so first-match lookup agrees with the Python dict). -/
def buildHeaderIndex (row : List String) : List (String × Nat) :=
  row.map fun name => (name, row.findIdx (fun c => c == name))

/-- Model of `header_index.get(name)` (no default): `none` when absent. -/
def lookupIdx (hi : List (String × Nat)) (name : String) : Option Nat :=
  (hi.find? (fun kv => kv.1 == name)).map Prod.snd

/-- The totes dict: an association list in insertion order. -/
abbrev Totes : Type := List (String × Tote)

/-- Model of `totes.get(tid)`. -/
def lookupTote (m : Totes) (tid : String) : Option Tote :=
  (m.find? (fun kv => kv.1 == tid)).map Prod.snd

/-- Model of assignment to an existing dict key (keeps its position). -/
def storeTote (m : Totes) (tid : String) (t : Tote) : Totes :=
  m.map fun kv => if kv.1 = tid then (tid, t) else kv

/-- Embeds `get_or_create`: a missing key is appended with a fresh `Tote`. -/
def getOrCreate (m : Totes) (tid : String) : Totes × Tote :=
  match lookupTote m tid with
  | some t => (m, t)
  | none =>
    let t : Tote := { tote_id := tid }
    (m ++ [(tid, t)], t)

/-- Model of `row[header_index.get(name, 0)]`: absent names default to column
0; an out-of-range index is an uncaught `IndexError` (`Except.error`). -/
def fetch0 (hi : List (String × Nat)) (row : List String) (name : String) :
    Except Unit String :=
  match row[(lookupIdx hi name).getD 0]? with
  | some v => Except.ok v
  | none => Except.error ()

/-- Python truthiness of the `qrdata` field (`None` and `""` are falsy). -/
def qrTruthy : Option String → Bool
  | none => false
  | some s => s ≠ ""

/-- The parent-id cell of a PRIMARY data row (source lines 170-173): `""` when
the column name is absent from the header index (the `is not None` guard) or
when the guarded access raises (its own `try/except`), otherwise the stripped
cell. -/
def parentCellValue (hi : List (String × Nat)) (row : List String) : String :=
  match lookupIdx hi "PARENT TOTE ID" with
  | none => ""
  | some i =>
    match row[i]? with
    | some v => pyStrip v
    | none => ""

/-- The `or`-update `cur or row[...].strip()` of title/location: the cell
access (which can raise) happens only when the current value is falsy
(empty). -/
def fieldOr (cur : String) (cell : Except Unit String) : Except Unit String :=
  if cur ≠ "" then pure cur else (fun v => pyStrip v) <$> cell

/-- The `or`-update `tote.qrdata or row[...].strip() or None`. -/
def qrOr (cur : Option String) (cell : Except Unit String) :
    Except Unit (Option String) :=
  if qrTruthy cur then pure cur
  else (fun v => if pyStrip v = "" then none else some (pyStrip v)) <$> cell

/-- The PRIMARY-state per-row mutation of one tote (source lines 166-186):
`or`-based first-write-wins for title/location/qrdata (the right operand — the
cell access — is only evaluated when the field is still unset),
last-non-empty-wins for the parent id (whose cell access has its own
`try/except` yielding `""`), then the item fields and `add_item`. -/
def primaryUpdate (hi : List (String × Nat)) (row : List String) (t : Tote) :
    Except Unit Tote := do
  let title ← fieldOr t.title (fetch0 hi row "TOTE TITLE")
  let location ← fieldOr t.location (fetch0 hi row "TOTE LOCATION")
  let qrdata ← qrOr t.qrdata (fetch0 hi row "QRDATA")
  let p_id := parentCellValue hi row
  let parent_id := if p_id ≠ "" then some p_id else t.parent_id
  let item_title ← (fun v => pyStrip v) <$> fetch0 hi row "ITEM TITLE"
  let item_desc ← (fun v => pyStrip v) <$> fetch0 hi row "ITEM DESCRIPTION"
  let qty_raw ← (fun v => pyStrip v) <$> fetch0 hi row "ITEM QUANTITY"
  let images_field ← (fun v => pyStrip v) <$> fetch0 hi row "IMAGES"
  let first_image : Option String :=
    if images_field ≠ "" then
      ((pySplitStr images_field).filter (fun p => pyStartsWith "http" p)).head?
    else none
  let t1 := { t with title := title, location := location, qrdata := qrdata,
                     parent_id := parent_id }
  pure (t1.add_item item_title item_desc (some qty_raw) first_image)

/-- The EMPTY-state per-row mutation of an existing tote (source lines
197-198): first-write-wins title/location only. -/
def emptyUpdate (hi : List (String × Nat)) (row : List String) (t : Tote) :
    Except Unit Tote := do
  let title ← fieldOr t.title (fetch0 hi row "TOTE TITLE")
  let location ← fieldOr t.location (fetch0 hi row "TOTE LOCATION")
  pure { t with title := title, location := location }

/-- Parser state carried across the rows of one file. -/
structure PState where
  totes : Totes
  mode : Mode
  hindex : List (String × Nat)
deriving DecidableEq

/-- The tote id the EMPTY state would read from a data row (`none` when the
`try` around `row[header_index.get("TOTE ID")]` raises). -/
def emptyRowToteId (hi : List (String × Nat)) (row : List String) : Option String :=
  (lookupIdx hi "TOTE ID").bind fun i => row[i]?

/-- Data-row processing (source lines 159-202): the PRIMARY and EMPTY states,
with rows in any other state ignored. Row skips taken by `continue` inside a
`try/except` are `Except.ok` with an unchanged map; an uncaught `IndexError`
is `Except.error`. -/
def processData (st : PState) (row : List String) : Except Unit PState :=
  match st.mode with
  | .PRIMARY =>
    match emptyRowToteId st.hindex row with
    | none => Except.ok st
    | some tid =>
      let gc := getOrCreate st.totes tid
      match primaryUpdate st.hindex row gc.2 with
      | Except.error e => Except.error e
      | Except.ok t2 => Except.ok { st with totes := storeTote gc.1 tid t2 }
  | .EMPTY =>
    match emptyRowToteId st.hindex row with
    | none => Except.ok st
    | some tid =>
      match lookupTote st.totes tid with
      | none => Except.ok st
      | some t =>
        match emptyUpdate st.hindex row t with
        | Except.error e => Except.error e
        | Except.ok t2 => Except.ok { st with totes := storeTote st.totes tid t2 }
  | _ => Except.ok st

/-- One iteration of the row loop in `read_csvs` (lines 131-202): blank-row
skip, the "Empty ToteScan labels" marker, header sniffing, the
`EMPTY_PENDING_HEADER` manual match, then data-row processing. -/
def processRow (st : PState) (row : List String) : Except Unit PState :=
  if ¬ row.any (fun cell => pyStrip cell ≠ "") then Except.ok st
  else if row.length = 1 ∧ containsSubstr "Empty ToteScan labels" (row.headD "") then
    Except.ok { st with mode := .EMPTY_PENDING_HEADER, hindex := [] }
  else
    match sniff_headers row with
    | .PRIMARY => Except.ok { st with mode := .PRIMARY, hindex := buildHeaderIndex row }
    | .EMPTY => Except.ok { st with mode := .EMPTY, hindex := buildHeaderIndex row }
    | _ =>
      if st.mode = .EMPTY_PENDING_HEADER ∧ (EMPTY_HEADER.all fun h => row.contains h) then
        Except.ok { st with mode := .EMPTY, hindex := buildHeaderIndex row }
      else processData st row

/-- One file of `read_csvs`: state starts at `UNKNOWN` with an empty header
index, totes accumulate across files. -/
def ingestFile (m : Totes) (rows : List (List String)) : Except Unit Totes :=
  (rows.foldlM processRow { totes := m, mode := .UNKNOWN, hindex := [] }).map PState.totes

/-- The ingestion pass of `read_csvs` over all files (before link building). -/
def ingest (files : List (List (List String))) : Except Unit Totes :=
  files.foldlM ingestFile ([] : Totes)

/-- One step of the parent→children link loop (source lines 205-212):
`if t.parent_id:` is Python truthiness, a missing parent is skipped, and a
child id is appended at most once. -/
def linkStep (acc : Totes) (entry : String × Tote) : Totes :=
  match entry.2.parent_id with
  | none => acc
  | some pid =>
    if pid = "" then acc
    else
      match lookupTote acc pid with
      | none => acc
      | some parent =>
        if entry.1 ∈ parent.children then acc
        else storeTote acc pid { parent with children := parent.children ++ [entry.1] }

/-- Embeds the link-building loop `for t in list(totes.values())`. -/
def buildLinks (m : Totes) : Totes :=
  List.foldl linkStep m m

/-- Embeds `read_csvs`: ingestion over the files, then link building. A row
set on which the Python function raises (uncaught `IndexError`) is
`Except.error`. -/
def read_csvs (files : List (List (List String))) : Except Unit Totes :=
  (ingest files).map buildLinks

/-! ## Text layout helpers (`wrap_text`, `ellipsize`)

`pdfmetrics.stringWidth(s, font, size)` sums per-glyph widths, so it is
embedded as an injected per-character width `cw : Char → ℚ` summed over the
string; a distinct `cw` stands for each (font, size) pair. -/

/-- Rendered width of a string under the injected per-character width. -/
def widthOf (cw : Char → ℚ) (s : String) : ℚ := (s.data.map cw).sum

/-- Model of `" ".join(ws)` on char lists. -/
def joinSpL : List (List Char) → List Char
  | [] => []
  | [w] => w
  | w :: ws => w ++ ' ' :: joinSpL ws

/-- Model of `" ".join(ws)`. -/
def joinSpace (ws : List String) : String := String.mk (joinSpL (ws.map String.data))

/-- The word loop of `wrap_text` (source lines 294-303): `cur` is the line under
construction; a word that does not fit flushes `cur` (when non-empty) and
starts a new line with that word. -/
def wrapAux (cw : Char → ℚ) (maxWidth : ℚ) : List String → List String → List String
  | cur, [] => if cur.isEmpty then [] else [joinSpace cur]
  | cur, w :: ws =>
    let candidate := pyStrip (joinSpace (cur ++ [w]))
    if widthOf cw candidate ≤ maxWidth then wrapAux cw maxWidth (cur ++ [w]) ws
    else
      (if cur.isEmpty then [] else [joinSpace cur]) ++ wrapAux cw maxWidth [w] ws

/-- Embeds `wrap_text`: greedy word wrap; an empty word list yields `[""]`. -/
def wrap_text (cw : Char → ℚ) (text : String) (max_width : ℚ) : List String :=
  let words := pySplitStr text
  let lines := wrapAux cw max_width [] words
  if lines.isEmpty then [""] else lines

/-- The ellipsis character appended by `ellipsize`. -/
def ellChar : Char := '…'

/-- The string `text[:k] + "…"`. -/
def takeEll (text : String) (k : Nat) : String := String.mk (text.data.take k ++ [ellChar])

/-- The binary-search loop of `ellipsize` (source lines 401-407). -/
def ellipsizeLoop (cw : Char → ℚ) (max_w : ℚ) (text : String) (lo hi : Nat) : Nat :=
  if h : lo < hi then
    let mid := (lo + hi) / 2
    if widthOf cw (takeEll text mid) ≤ max_w then ellipsizeLoop cw max_w text (mid + 1) hi
    else ellipsizeLoop cw max_w text lo mid
  else lo
termination_by hi - lo
decreasing_by
  · omega
  · omega

/-- Embeds the nested `ellipsize` of `draw_label` (source lines 397-408):
return the text when it fits, otherwise the longest prefix that fits with a
trailing ellipsis (Python's `max(lo - 1, 0)` is `Nat` subtraction here). -/
def ellipsize (cw : Char → ℚ) (text : String) (max_w : ℚ) : String :=
  if widthOf cw text ≤ max_w then text
  else takeEll text (max (ellipsizeLoop cw max_w text 0 text.data.length - 1) 0)

/-! ## Item-grid layout of `draw_label`

The vertical cursor `y`, page breaks and the per-row available width are the
layout decisions; drawing calls on the canvas are not modelled. The closure
variables of `draw_label` (`content_width`, `max_y`, `qr_bottom_y`, page
`height`/`margin`) are gathered in `GridCtx`; widths for the body font at
sizes 10 and 9 are the injected `cw10`/`cw9`. -/

/-- One point is 1/72 inch; `inch` is ReportLab's 72. -/
def inchQ : ℚ := 72

/-- The constant `qr_side = 1.5 * inch`. -/
def qr_side : ℚ := 1.5 * inchQ

/-- The constant `gutter = 0.15 * inch`. -/
def gutterQ : ℚ := 0.15 * inchQ

/-- The constant `pad = 4`. -/
def padQ : ℚ := 4

/-- The closure variables of `draw_label` the grids read. -/
structure GridCtx where
  content_width : ℚ
  height : ℚ
  margin : ℚ
  max_y : ℚ
  qr_bottom_y : Option ℚ
deriving Repr

/-- The `GridCtx` exactly as `draw_label` computes it: `content_width = width
- 2*margin`, `max_y = margin + 24`, `qr_bottom_y = top_y0 - qr_side` when a QR
was drawn (`top_y0 = height - margin`). -/
def drawLabelCtx (width height margin : ℚ) (qr_drawn : Bool) : GridCtx :=
  { content_width := width - 2 * margin
    height := height
    margin := margin
    max_y := margin + 24
    qr_bottom_y := if qr_drawn then some (height - margin - qr_side) else none }

/-- The cell title text: quantity, the times sign, then the item title (or
the `(untitled)` fallback). -/
def titleTextOf (item : ToteItem) : String :=
  if item.title ≠ "" then toString item.quantity ++ " × " ++ item.title
  else toString item.quantity ++ " × (untitled)"

/-- Embeds `measure_cell_text` (source lines 496-503): a text-mode cell is
`pad + 11 + (10 if desc_line else 0) + pad` high. -/
def measure_cell_text (cw10 cw9 : Char → ℚ) (item : ToteItem) (col_w : ℚ) : ℚ :=
  let text_w := col_w - 2 * padQ
  let title_line := ellipsize cw10 (titleTextOf item) text_w
  let desc_text := pyStrip item.description
  let desc_line := if desc_text ≠ "" then ellipsize cw9 desc_text text_w else ""
  let lines_h : ℚ := 11 + (if desc_line ≠ "" then 10 else 0)
  padQ + lines_h + padQ

/-- Embeds `measure_cell` of the thumbs grid (source lines 423-432); whether a
thumbnail resolved is injected as `thumbAvail` (the result of
`fetch_thumbnail`). -/
def measure_cell_thumbs (cw10 cw9 : Char → ℚ) (thumbAvail : String → Bool)
    (item : ToteItem) (col_w : ℚ) : ℚ :=
  let hasThumb :=
    match item.image_url with
    | some u => thumbAvail u
    | none => false
  let thumb_h : ℚ := if hasThumb then 0.7 * inchQ else 0
  let title_lines := wrap_text cw10 (titleTextOf item) (col_w - 2 * padQ)
  let desc_text := pyStrip item.description
  let desc_lines := if desc_text ≠ "" then wrap_text cw9 desc_text (col_w - 2 * padQ) else []
  let text_h : ℚ := title_lines.length * 11 +
    (if ¬ desc_lines.isEmpty then desc_lines.length * 10 else 0)
  let img_space : ℚ := if thumb_h ≠ 0 then thumb_h + 4 else 0
  padQ + img_space + text_h + padQ

/-- Python `max(row_heights)`. -/
def rowMax : List ℚ → ℚ
  | [] => 0
  | x :: xs => xs.foldl max x

/-- One laid-out grid row: the cursor before placement (`y_pre`, the value the
available-width test reads), the chosen available width, whether this row
issued a page break, and the cursor it was placed at. -/
structure RowSpec where
  y_pre : ℚ
  width : ℚ
  broke : Bool
  y_placed : ℚ
deriving Repr

/-- The per-row available width (source lines 420 / 493): narrowed by
`qr_side + 0.25*inch` whenever a QR was drawn and the (pre-placement) cursor
is above `qr_bottom_y`. -/
def rowAvailableWidth (ctx : GridCtx) (y : ℚ) : ℚ :=
  match ctx.qr_bottom_y with
  | some qb => if y > qb then ctx.content_width - (qr_side + 0.25 * inchQ) else ctx.content_width
  | none => ctx.content_width

/-- The `while i < len(items)` loop shared by both grids, parametrised by the
column count and the cell measurer: computes each row's available width from
the current cursor, measures the row, breaks the page when the row would not
fit (`y - row_h < max_y`, resetting to `height - margin` minus the 22-point
continuation header), places the row, and advances by `row_h + 6`. -/
def gridLoop (ctx : GridCtx) (cols : Nat) (hcols : 0 < cols) (measure : ToteItem → ℚ → ℚ) :
    List ToteItem → ℚ → List RowSpec × ℚ
  | [], y => ([], y)
  | it :: rest, y =>
    let items := it :: rest
    let row_items := items.take cols
    let row_available_width := rowAvailableWidth ctx y
    let col_width := (row_available_width - gutterQ * (cols - 1 : Nat)) / (cols : ℚ)
    let row_heights := row_items.map fun itm => measure itm col_width
    let row_h := rowMax row_heights
    let broke := decide (y - row_h < ctx.max_y)
    let y1 := if y - row_h < ctx.max_y then ctx.height - ctx.margin - 22 else y
    let y2 := y1 - (row_h + 6)
    let rest_result := gridLoop ctx cols hcols measure ((it :: rest).drop cols) y2
    ({ y_pre := y, width := row_available_width, broke := broke, y_placed := y1 } ::
        rest_result.1,
      rest_result.2)
termination_by items _ => items.length
decreasing_by
  simp only [List.length_drop, List.length_cons]
  omega

/-- Embeds `render_items_grid_text` (4 columns; an empty item list draws the
placeholder line and moves the cursor by 14). -/
def render_items_grid_text (cw10 cw9 : Char → ℚ) (ctx : GridCtx)
    (items : List ToteItem) (y : ℚ) : List RowSpec × ℚ :=
  if items.isEmpty then ([], y - 14)
  else gridLoop ctx 4 (by omega) (measure_cell_text cw10 cw9) items y

/-- Embeds `render_items_grid_thumbs` (5 columns). -/
def render_items_grid_thumbs (cw10 cw9 : Char → ℚ) (thumbAvail : String → Bool)
    (ctx : GridCtx) (items : List ToteItem) (y : ℚ) : List RowSpec × ℚ :=
  if items.isEmpty then ([], y - 14)
  else gridLoop ctx 5 (by omega) (measure_cell_thumbs cw10 cw9 thumbAvail) items y

/-! ## Document assembly (`generate_pdf`, `main` in mode "both") -/

/-- Model of Python `p.rfind(c)`: the greatest index holding `c`, `-1` when
absent. -/
def pyRFind (c : Char) (p : String) : Int :=
  match (p.data.reverse.findIdx? (fun d => d = c)) with
  | some j => (p.data.length : Int) - 1 - j
  | none => -1

/-- Model of `os.path.splitext` (posixpath): split at the last dot of the
basename unless the basename consists only of leading dots up to it. -/
def pySplitExt (p : String) : String × String :=
  let sepIndex := pyRFind '/' p
  let dotIndex := pyRFind '.' p
  if sepIndex < dotIndex then
    let stem := (p.data.take (dotIndex.toNat)).drop (sepIndex + 1).toNat
    if stem.all (fun c => c = '.') then (p, "")
    else (String.mk (p.data.take dotIndex.toNat), String.mk (p.data.drop dotIndex.toNat))
  else (p, "")

/-- The sequence of tote ids `generate_pdf` draws one label for, in order:
`for tote_id in sorted(totes.keys())` (source line 585). -/
def generate_pdf_order (totes : Totes) : List String :=
  pySorted (totes.map Prod.fst)

/-- The documents `main` produces in mode `"both"` (source lines 628-634):
two paths built from `os.path.splitext(output)` with the `_thumbs` / `_text`
suffix (extension defaulting to `.pdf`), each rendering the same label
sequence. -/
def mainBothDocs (totes : Totes) (output : String) : List (String × List String) :=
  let be := pySplitExt output
  let ext := if be.2 = "" then ".pdf" else be.2
  [(be.1 ++ "_thumbs" ++ ext, generate_pdf_order totes),
   (be.1 ++ "_text" ++ ext, generate_pdf_order totes)]

/-! ## `fetch_thumbnail` failure model

Every fallible operation the function performs is injected through a
`FetchOracle` describing its outcome for the requested URL: the cached file
(absent / corrupt / decodable), `os.remove`, `requests.get` +
`raise_for_status`, `Image.open` on the body, mode normalisation, and the
cache save. `os.makedirs(..., exist_ok=True)` — not one of the failure kinds
the claim enumerates — is treated as succeeding. Bitmaps and response bodies
are abstract types. -/

/-- Outcomes of the fallible steps of `fetch_thumbnail` for one URL. -/
structure FetchOracle (Img Bytes : Type) where
  imageAvailable : Bool
  cached : Option (Except Unit Img)
  removeOk : Bool
  getResp : Except Unit Bytes
  statusOk : Bool
  decodeImg : Bytes → Except Unit Img
  normalize : Img → Except Unit Img
  shrink : Img → Except Unit Img
  saveOk : Bool

/-- Result of a `fetch_thumbnail` run: the returned value (`Except.error`
would be an uncaught exception) and the cache entry for the URL afterwards. -/
structure FetchResult (Img : Type) where
  result : Except Unit (Option Img)
  cacheAfter : Option (Except Unit Img)
deriving Repr

/-- The download half of `fetch_thumbnail` (source lines 270-286): one big
`try` whose failures all return `None`; a failed save is swallowed and the
thumbnail still returned. -/
def downloadStep {Img Bytes : Type} (o : FetchOracle Img Bytes)
    (cacheNow : Option (Except Unit Img)) : FetchResult Img :=
  match o.getResp with
  | Except.error _ => { result := Except.ok none, cacheAfter := cacheNow }
  | Except.ok body =>
    if ¬ o.statusOk then { result := Except.ok none, cacheAfter := cacheNow }
    else
      match o.decodeImg body with
      | Except.error _ => { result := Except.ok none, cacheAfter := cacheNow }
      | Except.ok img =>
        match o.normalize img with
        | Except.error _ => { result := Except.ok none, cacheAfter := cacheNow }
        | Except.ok img2 =>
          match o.shrink img2 with
          | Except.error _ => { result := Except.ok none, cacheAfter := cacheNow }
          | Except.ok thumb =>
            if o.saveOk then
              { result := Except.ok (some thumb), cacheAfter := some (Except.ok thumb) }
            else { result := Except.ok (some thumb), cacheAfter := cacheNow }

/-- Embeds `fetch_thumbnail` (source lines 254-286): missing PIL returns
`None`; a decodable cached file is returned; a corrupt one is removed (the
removal failure itself swallowed) and control falls through to the download. -/
def fetch_thumbnail {Img Bytes : Type} (o : FetchOracle Img Bytes) : FetchResult Img :=
  if ¬ o.imageAvailable then { result := Except.ok none, cacheAfter := o.cached }
  else
    match o.cached with
    | some (Except.ok img) => { result := Except.ok (some img), cacheAfter := o.cached }
    | some (Except.error _) =>
      let cacheNow := if o.removeOk then none else o.cached
      downloadStep o cacheNow
    | none => downloadStep o none

/-! ## Spec-side vocabulary used by theorem statements -/

/-- Per-character width as a function of char lists (the worker behind
`widthOf`). -/
def widthOfL (cw : Char → ℚ) (l : List Char) : ℚ := (l.map cw).sum

/-- A word as produced by Python `split()`: non-empty, no whitespace chars. -/
def wordOkL (w : List Char) : Prop := w ≠ [] ∧ ∀ c ∈ w, ¬ c.isWhitespace

/-- Predicate `wordOkL` at the `String` level. -/
def wordOkS (w : String) : Prop := wordOkL w.data

/-- The cell a PRIMARY data-row field reads under `header_index.get(name, 0)`
when the row is long enough: index defaults to column 0 for absent names. -/
def specCell (hi : List (String × Nat)) (row : List String) (name : String) : String :=
  row.getD ((lookupIdx hi name).getD 0) ""

/-- First non-empty value of a field sequence ("first-write-wins"). -/
def firstNE (l : List String) : Option String := l.find? (fun s => s ≠ "")

/-- Last non-empty value of a field sequence ("last-write-wins"). -/
def lastNE (l : List String) : Option String := l.reverse.find? (fun s => s ≠ "")

/-- The field names a PRIMARY data row reads through `get(name, 0)`. -/
def primaryFieldNames : List String :=
  ["TOTE TITLE", "TOTE LOCATION", "QRDATA", "ITEM TITLE", "ITEM DESCRIPTION",
   "ITEM QUANTITY", "IMAGES"]

/-- The QR-narrowing rule one laid-out grid row obeys: its available width is
either the full content width or the QR-narrowed one, and it is narrowed
exactly when a QR was drawn and the row's pre-placement cursor is strictly
above the QR region's bottom boundary — on whatever page the row ends up. -/
def RowNarrowRule (ctx : GridCtx) (r : RowSpec) : Prop :=
  (r.width = ctx.content_width ∨ r.width = ctx.content_width - (qr_side + 0.25 * inchQ)) ∧
  (r.width = ctx.content_width - (qr_side + 0.25 * inchQ) ↔
    ∃ qb, ctx.qr_bottom_y = some qb ∧ qb < r.y_pre)

/-! ## Concrete inputs used by counterexamples and witnesses -/

/-- A constant character width of 1 (a concrete `stringWidth` model). -/
def exUnitWidth : Char → ℚ := fun _ => 1

/-- A constant character width of 6. -/
def exSixWidth : Char → ℚ := fun _ => 6

/-- The grid context of a letter-size label whose QR code was drawn. -/
def exGridCtx : GridCtx := drawLabelCtx 612 792 36 true

/-- A minimal item (title only). -/
def exGridItem : ToteItem := { title := "x", description := "", quantity := 1 }

/-- A PRIMARY data row whose TOTE ID cell is the empty string. -/
def exRowEmptyToteId : List String :=
  ["p1", "", "", "", "", "", "Widget", "", "", "", "", "", "", ""]

/-- A 14-column header that passes the PRIMARY sniff but has no
`PARENT TOTE ID` column. -/
def exHeaderNoParent : List String :=
  ["PROFILE", "TOTE ID", "PARENTX", "QRDATA", "TOTE LOCATION", "TOTE TITLE",
   "ITEM TITLE", "ITEM DESCRIPTION", "UPC", "ITEM QUANTITY", "IMAGES",
   "CREATED", "UPDATED", "ITEM URL"]

/-- A data row under `exHeaderNoParent` whose first cell is non-empty. -/
def exRowC10 : List String :=
  ["P0", "T1", "", "", "", "Ttl", "Widget", "", "", "", "", "", "", ""]

/-- A PRIMARY data row creating tote `T1`. -/
def exRowT1 : List String :=
  ["p", "T1", "", "QR1", "Shelf", "My Tote", "Widget", "", "", "3", "", "", "", ""]

/-- A PRIMARY data row creating tote `T2` with parent `T1`. -/
def exRowT2 : List String :=
  ["p", "T2", "T1", "", "", "", "Thing", "", "", "1", "", "", "", ""]

/-- The header index of the reduced (EMPTY) header. -/
def exEmptyHindex : List (String × Nat) := buildHeaderIndex EMPTY_HEADER

/-- An EMPTY-section data row for an id (`T9`) not in the model. -/
def exEmptyRow : List String := ["p", "T9", "Loc", "Ttl"]

/-- A one-tote model holding only `T1`. -/
def exTotesOne : Totes := [("T1", { tote_id := "T1" })]

/-- A two-tote model inserted in the order `B`, `A`. -/
def exTotesBA : Totes := [("B", { tote_id := "B" }), ("A", { tote_id := "A" })]

/-- A fetch oracle with a corrupt cached file, successful removal, and a
fully successful download path. -/
def exOracle : FetchOracle Nat Nat :=
  { imageAvailable := true
    cached := some (Except.error ())
    removeOk := true
    getResp := Except.ok 5
    statusOk := true
    decodeImg := fun b => Except.ok (b + 1)
    normalize := fun i => Except.ok i
    shrink := fun i => Except.ok i
    saveOk := true }

/-- The header index of the canonical PRIMARY header. -/
def exPrimaryHindex : List (String × Nat) := buildHeaderIndex PRIMARY_HEADER

/-- Two full-width PRIMARY data rows for one tote: the first sets title `A`
and parent `P1`, the second offers title `B` and parent `P2`. -/
def exRowsMerge : List (List String) :=
  [["p", "T1", "P1", "QA", "L1", "A", "W", "", "", "1", "", "", "", ""],
   ["p", "T1", "P2", "QB", "L2", "B", "X", "", "", "1", "", "", "", ""]]

/-- One input file with totes `T1` and `T2`, the `T2` parent row repeated. -/
def exLinkFiles : List (List (List String)) :=
  [[PRIMARY_HEADER, exRowT1, exRowT2, exRowT2]]

/-- Invariant of the ingestion pass: keys are unique, every tote's id equals
its key, and children lists are untouched (links are built afterwards). -/
def IngestInv (m : Totes) : Prop :=
  (m.map Prod.fst).Nodup ∧ ∀ kv ∈ m, kv.2.tote_id = kv.1 ∧ kv.2.children = []

/-- Invariant of the link-building fold, relative to the pre-link map `m0`:
keys unchanged, ids intact, parent ids untouched, and every recorded child
link is justified by a pre-link tote whose parent id names the recording
key. -/
def LinkInv (m0 acc : Totes) : Prop :=
  acc.map Prod.fst = m0.map Prod.fst ∧
  (∀ kv ∈ acc, kv.2.tote_id = kv.1) ∧
  (∀ k, (lookupTote acc k).map Tote.parent_id = (lookupTote m0 k).map Tote.parent_id) ∧
  (∀ kv ∈ acc, kv.2.children.Nodup ∧
    ∀ cid ∈ kv.2.children, ∃ t2, lookupTote m0 cid = some t2 ∧ t2.parent_id = some kv.1)

/-! # Theorems -/

/-! ## Shared helper lemmas -/

/-- Helper: `storeTote` never changes the key sequence of the map. -/
theorem storeTote_keys (m : Totes) (tid : String) (t : Tote) :
    (storeTote m tid t).map Prod.fst = m.map Prod.fst := by
  induction m with
  | nil => rfl
  | cons kv rest ih =>
    simp only [storeTote, List.map_cons] at *
    by_cases h : kv.1 = tid
    · simp [h, ih]
    · simp [h, ih]

/-- Helper: `Tote.add_item` keeps `tote_id`. -/
theorem add_item_tote_id (t : Tote) (a b : String) (q i : Option String) :
    (t.add_item a b q i).tote_id = t.tote_id := by
  unfold Tote.add_item
  split <;> rfl

/-- Helper: `Tote.add_item` keeps `title`. -/
theorem add_item_title (t : Tote) (a b : String) (q i : Option String) :
    (t.add_item a b q i).title = t.title := by
  unfold Tote.add_item
  split <;> rfl

/-- Helper: `Tote.add_item` keeps `location`. -/
theorem add_item_location (t : Tote) (a b : String) (q i : Option String) :
    (t.add_item a b q i).location = t.location := by
  unfold Tote.add_item
  split <;> rfl

/-- Helper: `Tote.add_item` keeps `qrdata`. -/
theorem add_item_qrdata (t : Tote) (a b : String) (q i : Option String) :
    (t.add_item a b q i).qrdata = t.qrdata := by
  unfold Tote.add_item
  split <;> rfl

/-- Helper: `Tote.add_item` keeps `parent_id`. -/
theorem add_item_parent_id (t : Tote) (a b : String) (q i : Option String) :
    (t.add_item a b q i).parent_id = t.parent_id := by
  unfold Tote.add_item
  split <;> rfl

/-- Helper: `Tote.add_item` keeps `children`. -/
theorem add_item_children (t : Tote) (a b : String) (q i : Option String) :
    (t.add_item a b q i).children = t.children := by
  unfold Tote.add_item
  split <;> rfl

/-- Helper: the `items` list produced by `Tote.add_item`, spelled out — no
item when both title and description are empty, otherwise one appended item
with the stripped title/description, the parsed-or-1 quantity and the
normalised image url. -/
theorem add_item_items (t : Tote) (a b : String) (q i : Option String) :
    (t.add_item a b q i).items = t.items ++
      (if a = "" ∧ b = "" then [] else
        [{ title := pyStrip a, description := pyStrip b,
           quantity :=
             match q with
             | none => 1
             | some qq =>
               if qq = "" ∨ qq = " " then 1
               else
                 match pyIntParse? qq with
                 | some n => n
                 | none => 1,
           image_url :=
             match i with
             | some u => if u = "" then none else some u
             | none => none }]) := by
  unfold Tote.add_item
  by_cases h : a = "" ∧ b = ""
  · rw [if_pos h, if_pos h, List.append_nil]
  · rw [if_neg h, if_neg h]

/-! ## Claim C3 (quantity handling in `add_item`) -/

/-- Claim C3 as frozen is false on the code: `add_item` stores whatever
integer `int()` parses, so the quantity `"-2"` is stored as `-2`, which is
not positive. -/
theorem C3_counterexample :
    ((Tote.add_item { tote_id := "T1" } "X" "" (some "-2") none).items.map
      ToteItem.quantity) = [-2] ∧ ¬ (0 < (-2 : Int)) := by
  exact ⟨rfl, by decide⟩

/-- Claim C3 (amended): for every item added via `add_item`, when the quantity
argument is missing, empty, a lone space, or not parseable as an integer, the
stored quantity is exactly 1 (the stored quantity is otherwise the parsed
integer, which the code does not constrain to be positive). -/
theorem add_item_quantity_defaults_one (t : Tote) (title description : String)
    (q img : Option String) (hne : ¬ (title = "" ∧ description = ""))
    (hq : q = none ∨ q = some "" ∨ q = some " " ∨
      ∃ s, q = some s ∧ pyIntParse? s = none) :
    ∃ it : ToteItem, (t.add_item title description q img).items = t.items ++ [it] ∧
      it.quantity = 1 := by
  unfold Tote.add_item
  rw [if_neg hne]
  refine ⟨_, rfl, ?_⟩
  rcases hq with rfl | rfl | rfl | ⟨s, rfl, hs⟩
  · rfl
  · rfl
  · rfl
  · by_cases h1 : s = "" ∨ s = " "
    · simp only [if_pos h1]
    · simp only [if_neg h1, hs]

/-- Witness for `add_item_quantity_defaults_one` at the unparsable quantity
`"zz"` on a fresh tote. -/
theorem add_item_quantity_defaults_one_witness :
    ∃ it : ToteItem,
      (Tote.add_item { tote_id := "W" } "A" "" (some "zz") none).items =
        ({ tote_id := "W" } : Tote).items ++ [it] ∧ it.quantity = 1 :=
  add_item_quantity_defaults_one { tote_id := "W" } "A" "" (some "zz") none
    (by decide) (Or.inr (Or.inr (Or.inr ⟨"zz", rfl, by decide⟩)))

/-! ## Claim C9 (`fetch_thumbnail` failure totality) -/

/-- The download half never raises. -/
theorem downloadStep_isOk {Img Bytes : Type} (o : FetchOracle Img Bytes)
    (c : Option (Except Unit Img)) : ∃ v, (downloadStep o c).result = Except.ok v := by
  unfold downloadStep
  repeat' split
  all_goals exact ⟨_, rfl⟩

/-- The returned value of the download half does not depend on the incoming
cache state (only the recorded cache entry does). -/
theorem downloadStep_result_ignores_cache {Img Bytes : Type} (o : FetchOracle Img Bytes)
    (c c' : Option (Except Unit Img)) :
    (downloadStep o c).result = (downloadStep o c').result := by
  unfold downloadStep
  repeat' split
  all_goals rfl

/-- Claim C9: `fetch_thumbnail` is total with respect to the failures it can
see (network error, timeout and HTTP error live in `getResp`/`statusOk`,
decode failures in `cached`/`decodeImg`/`normalize`/`shrink`): for every
oracle it returns `Except.ok` (some bitmap or `none`), never an uncaught
exception; and a corrupt cached file behaves as a miss — the returned value
is the one the no-cache run returns, and when the removal succeeds (and PIL
is importable, so the cache branch runs at all) the whole outcome, cache
state included, equals the no-cache run's. -/
theorem fetch_thumbnail_never_raises {Img Bytes : Type} (o : FetchOracle Img Bytes) :
    (∃ v, (fetch_thumbnail o).result = Except.ok v) ∧
    (o.cached = some (Except.error ()) →
      (fetch_thumbnail o).result = (fetch_thumbnail { o with cached := none }).result ∧
      (o.imageAvailable = true → o.removeOk = true →
        fetch_thumbnail o = fetch_thumbnail { o with cached := none })) := by
  constructor
  · unfold fetch_thumbnail
    split
    · exact ⟨none, rfl⟩
    · split
      · exact ⟨_, rfl⟩
      · exact downloadStep_isOk o _
      · exact downloadStep_isOk o none
  · intro hc
    have hob : fetch_thumbnail { o with cached := none } =
        if ¬ o.imageAvailable then { result := Except.ok none, cacheAfter := none }
        else downloadStep o none := rfl
    have hcur : fetch_thumbnail o =
        if ¬ o.imageAvailable then { result := Except.ok none, cacheAfter := o.cached }
        else downloadStep o (if o.removeOk then none else o.cached) := by
      unfold fetch_thumbnail
      rw [hc]
    constructor
    · rw [hcur, hob]
      by_cases ha : o.imageAvailable
      · simp only [ha, not_true, ite_false, Bool.not_eq_true]
        exact downloadStep_result_ignores_cache o _ none
      · simp [ha]
    · intro ha hr
      rw [hcur, hob]
      simp [ha, hr]

/-- Witness for `fetch_thumbnail_never_raises` at a concrete oracle with a
corrupt cache entry, successful removal and a successful download. -/
theorem fetch_thumbnail_never_raises_witness :
    fetch_thumbnail exOracle = fetch_thumbnail { exOracle with cached := none } :=
  ((fetch_thumbnail_never_raises exOracle).2 rfl).2 rfl rfl

/-! ## Claim C1 (container ids; EMPTY rows never create) -/

/-- Claim C1 as frozen is false on the code: a PRIMARY data row whose TOTE ID
cell is the empty string creates a `Tote` whose id is `""` (the id is taken
from the cell unchecked and unstripped). -/
theorem C1_counterexample :
    (read_csvs [[PRIMARY_HEADER, exRowEmptyToteId]]).map
      (fun m => m.map fun kv => kv.2.tote_id) = Except.ok [""] := rfl

/-- Claim C1 (amended): a row processed in the EMPTY state never creates a
container — the key sequence of the totes map is unchanged by any such row,
and when the row's container id does not resolve to an existing key the map
is left entirely unchanged. (Container ids can be empty: they are the raw
TOTE ID cells of PRIMARY rows.) -/
theorem empty_state_never_creates (m : Totes) (hi : List (String × Nat))
    (row : List String) (st' : PState)
    (h : processRow { totes := m, mode := Mode.EMPTY, hindex := hi } row = Except.ok st') :
    st'.totes.map Prod.fst = m.map Prod.fst ∧
    ((∀ tid, emptyRowToteId hi row = some tid → lookupTote m tid = none) →
      st'.totes = m) := by
  unfold processRow at h
  split at h
  · cases h
    exact ⟨rfl, fun _ => rfl⟩
  · split at h
    · cases h
      exact ⟨rfl, fun _ => rfl⟩
    · split at h
      · cases h
        exact ⟨rfl, fun _ => rfl⟩
      · cases h
        exact ⟨rfl, fun _ => rfl⟩
      · split at h
        · cases h
          exact ⟨rfl, fun _ => rfl⟩
        · simp only [processData] at h
          split at h
          · cases h
            exact ⟨rfl, fun _ => rfl⟩
          · rename_i tid heq
            split at h
            · cases h
              exact ⟨rfl, fun _ => rfl⟩
            · rename_i t hlook
              split at h
              · exact absurd h (by simp)
              · rename_i t2 hupd
                cases h
                refine ⟨storeTote_keys m tid t2, fun hall => ?_⟩
                rw [hall tid heq] at hlook
                exact absurd hlook (by simp)

/-- Witness for `empty_state_never_creates`: an EMPTY data row for the
unknown id `T9` leaves a one-tote model unchanged. -/
theorem empty_state_never_creates_witness :
    ({ totes := exTotesOne, mode := Mode.EMPTY, hindex := exEmptyHindex } : PState).totes
      = exTotesOne := by
  refine (empty_state_never_creates exTotesOne exEmptyHindex exEmptyRow
    { totes := exTotesOne, mode := Mode.EMPTY, hindex := exEmptyHindex } rfl).2 ?_
  intro tid hhh
  rw [show emptyRowToteId exEmptyHindex exEmptyRow = some "T9" from rfl] at hhh
  cases hhh
  rfl

/-! ## Claim C10 (absent-column defaults in PRIMARY rows) -/

/-- Claim C10 as frozen is false on the code: with a header lacking
`PARENT TOTE ID`, the parent id of a PRIMARY data row is left unset even
though the row's first cell (`"P0"`) is non-empty — the parent-id lookup does
not default to column 0 (its access is guarded by an `is not None` check). -/
theorem C10_counterexample :
    (read_csvs [[exHeaderNoParent, exRowC10]]).map
      (fun m => m.map fun kv => kv.2.parent_id) = Except.ok [none] ∧
    exRowC10.headD "" = "P0" := ⟨rfl, rfl⟩

/-- Claim C10 (amended): in PRIMARY mode a data row is skipped only when the
TOTE ID column cannot be resolved; each of the seven other `get(name, 0)`
fields (TOTE TITLE, TOTE LOCATION, QRDATA, ITEM TITLE, ITEM DESCRIPTION,
ITEM QUANTITY, IMAGES) silently reads the row's first cell when its name is
absent from the header index — but PARENT TOTE ID does not: when absent the
parent id is simply left unchanged. -/
theorem primary_absent_fields_default_to_first_cell (hi : List (String × Nat))
    (row : List String) (t : Tote) (v0 : String)
    (h0 : row[0]? = some v0)
    (habs : ∀ n ∈ primaryFieldNames, lookupIdx hi n = none)
    (hpar : lookupIdx hi "PARENT TOTE ID" = none) :
    (primaryUpdate hi row t).map Tote.title =
      Except.ok (if t.title ≠ "" then t.title else pyStrip v0) ∧
    (primaryUpdate hi row t).map Tote.location =
      Except.ok (if t.location ≠ "" then t.location else pyStrip v0) ∧
    (qrTruthy t.qrdata = false →
      (primaryUpdate hi row t).map Tote.qrdata =
        Except.ok (if pyStrip v0 = "" then none else some (pyStrip v0))) ∧
    (primaryUpdate hi row t).map Tote.parent_id = Except.ok t.parent_id ∧
    (primaryUpdate hi row t).map Tote.items = Except.ok (t.items ++
      (if pyStrip v0 = "" then [] else
        [{ title := pyStrip (pyStrip v0), description := pyStrip (pyStrip v0),
           quantity :=
             if pyStrip v0 = "" ∨ pyStrip v0 = " " then 1
             else
               match pyIntParse? (pyStrip v0) with
               | some n => n
               | none => 1,
           image_url :=
             match ((pySplitStr (pyStrip v0)).filter
                 fun p => pyStartsWith "http" p).head? with
             | some u => if u = "" then none else some u
             | none => none }])) ∧
    (∀ st : PState, st.mode = Mode.PRIMARY → emptyRowToteId st.hindex row = none →
      processData st row = Except.ok st) := by
  have hf : ∀ n ∈ primaryFieldNames, fetch0 hi row n = Except.ok v0 := by
    intro n hn
    unfold fetch0
    rw [habs n hn]
    simp only [Option.getD_none, h0]
  have h1 : fetch0 hi row "TOTE TITLE" = Except.ok v0 := hf _ (by decide)
  have h2 : fetch0 hi row "TOTE LOCATION" = Except.ok v0 := hf _ (by decide)
  have h3 : fetch0 hi row "QRDATA" = Except.ok v0 := hf _ (by decide)
  have h4 : fetch0 hi row "ITEM TITLE" = Except.ok v0 := hf _ (by decide)
  have h5 : fetch0 hi row "ITEM DESCRIPTION" = Except.ok v0 := hf _ (by decide)
  have h6 : fetch0 hi row "ITEM QUANTITY" = Except.ok v0 := hf _ (by decide)
  have h7 : fetch0 hi row "IMAGES" = Except.ok v0 := hf _ (by decide)
  have hpc : parentCellValue hi row = "" := by
    unfold parentCellValue
    rw [hpar]
  refine ⟨?_, ?_, ?_, ?_, ?_, ?_⟩
  · unfold primaryUpdate
    rw [hpc]
    by_cases hc1 : t.title ≠ "" <;> by_cases hc2 : t.location ≠ "" <;>
      by_cases hc3 : qrTruthy t.qrdata = true <;>
      simp [hc1, hc2, hc3, h1, h2, h3, h4, h5, h6, h7, add_item_title, fieldOr, qrOr, Except.map, Except.bind, Bind.bind, pure, Except.pure]
  · unfold primaryUpdate
    rw [hpc]
    by_cases hc1 : t.title ≠ "" <;> by_cases hc2 : t.location ≠ "" <;>
      by_cases hc3 : qrTruthy t.qrdata = true <;>
      simp [hc1, hc2, hc3, h1, h2, h3, h4, h5, h6, h7, add_item_location, fieldOr, qrOr, Except.map, Except.bind, Bind.bind, pure, Except.pure]
  · intro hq
    unfold primaryUpdate
    rw [hpc]
    by_cases hc1 : t.title ≠ "" <;> by_cases hc2 : t.location ≠ "" <;>
      simp [hc1, hc2, hq, h1, h2, h3, h4, h5, h6, h7, add_item_qrdata, fieldOr, qrOr, Except.map, Except.bind, Bind.bind, pure, Except.pure]
  · unfold primaryUpdate
    rw [hpc]
    by_cases hc1 : t.title ≠ "" <;> by_cases hc2 : t.location ≠ "" <;>
      by_cases hc3 : qrTruthy t.qrdata = true <;>
      simp [hc1, hc2, hc3, h1, h2, h3, h4, h5, h6, h7, add_item_parent_id, fieldOr, qrOr, Except.map, Except.bind, Bind.bind, pure, Except.pure]
  · unfold primaryUpdate
    rw [hpc]
    by_cases hv : pyStrip v0 = "" <;>
      by_cases hc1 : t.title ≠ "" <;> by_cases hc2 : t.location ≠ "" <;>
      by_cases hc3 : qrTruthy t.qrdata = true <;>
      simp [hv, hc1, hc2, hc3, h1, h2, h3, h4, h5, h6, h7, add_item_items, fieldOr, qrOr, Except.map, Except.bind, Bind.bind, pure, Except.pure]
  · intro st hm hnone
    unfold processData
    rw [hm, hnone]

/-! ## Claim C8 (label order in `generate_pdf` and mode "both") -/

/-- Totality of `listLe`. -/
theorem listLe_total (a b : List Char) : listLe a b = true ∨ listLe b a = true := by
  induction a generalizing b with
  | nil => exact Or.inl rfl
  | cons x as ih =>
    cases b with
    | nil => exact Or.inr rfl
    | cons y bs =>
      rcases lt_trichotomy x y with hxy | hxy | hxy
      · exact Or.inl (by simp [listLe, hxy])
      · subst hxy
        rcases ih bs with h | h
        · exact Or.inl (by simp [listLe, h])
        · exact Or.inr (by simp [listLe, h])
      · exact Or.inr (by simp [listLe, hxy])

/-- Transitivity of `listLe`. -/
theorem listLe_trans (a b c : List Char) (hab : listLe a b = true)
    (hbc : listLe b c = true) : listLe a c = true := by
  induction a generalizing b c with
  | nil => rfl
  | cons x as ih =>
    cases b with
    | nil => simp [listLe] at hab
    | cons y bs =>
      cases c with
      | nil => simp [listLe] at hbc
      | cons z cs =>
        rcases lt_trichotomy x y with hxy | hxy | hxy
        · rcases lt_trichotomy y z with hyz | hyz | hyz
          · exact (by simp [listLe, lt_trans hxy hyz])
          · subst hyz
            simp [listLe, hxy]
          · simp [listLe, hyz, asymm hyz] at hbc
        · subst hxy
          rcases lt_trichotomy x z with hxz | hxz | hxz
          · simp [listLe, hxz]
          · subst hxz
            simp only [listLe, lt_irrefl, if_false] at hab hbc ⊢
            exact ih bs cs hab hbc
          · simp [listLe, hxz, asymm hxz] at hbc
        · simp [listLe, hxy, asymm hxy] at hab

/-- Antisymmetry of `listLe`. -/
theorem listLe_antisymm (a b : List Char) (hab : listLe a b = true)
    (hba : listLe b a = true) : a = b := by
  induction a generalizing b with
  | nil =>
    cases b with
    | nil => rfl
    | cons y bs => simp [listLe] at hba
  | cons x as ih =>
    cases b with
    | nil => simp [listLe] at hab
    | cons y bs =>
      rcases lt_trichotomy x y with hxy | hxy | hxy
      · simp [listLe, hxy, asymm hxy] at hba
      · subst hxy
        simp only [listLe, lt_irrefl, if_false] at hab hba
        rw [ih bs hab hba]
      · simp [listLe, hxy, asymm hxy] at hab

/-- Antisymmetry of `pyStrLe` on strings. -/
theorem pyStrLe_antisymm (a b : String) (hab : pyStrLe a b = true)
    (hba : pyStrLe b a = true) : a = b := by
  cases a with
  | mk la =>
    cases b with
    | mk lb => exact congrArg String.mk (listLe_antisymm la lb hab hba)

/-- Claim C8: `generate_pdf` draws exactly one label per container, in
ascending lexicographic (code-point) order of container id, independently of
insertion order; and in mode "both" `main` produces two documents that each
render that same label sequence. -/
theorem generate_pdf_label_order (m : Totes) (hnd : (m.map Prod.fst).Nodup) :
    (generate_pdf_order m).Perm (m.map Prod.fst) ∧
    List.Pairwise (fun a b => pyStrLe a b = true) (generate_pdf_order m) ∧
    (∀ k ∈ m.map Prod.fst, (generate_pdf_order m).count k = 1) ∧
    (∀ m2 : Totes, (m2.map Prod.fst).Perm (m.map Prod.fst) →
      generate_pdf_order m2 = generate_pdf_order m) ∧
    (∀ output, (mainBothDocs m output).length = 2 ∧
      ∀ d ∈ mainBothDocs m output, d.2 = generate_pdf_order m) := by
  have htrans : ∀ (a b c : String), pyStrLe a b = true → pyStrLe b c = true →
      pyStrLe a c = true := fun a b c hab hbc => listLe_trans a.data b.data c.data hab hbc
  have htotal : ∀ (a b : String), (pyStrLe a b || pyStrLe b a) = true := by
    intro a b
    rcases listLe_total a.data b.data with h | h
    · simp [pyStrLe, h]
    · simp [pyStrLe, h]
  have hsorted : ∀ l : List String,
      List.Pairwise (fun a b => pyStrLe a b = true) (pySorted l) :=
    fun l => List.sorted_mergeSort htrans htotal l
  have hperm : ∀ l : List String, (pySorted l).Perm l :=
    fun l => List.mergeSort_perm l pyStrLe
  refine ⟨hperm _, hsorted _, ?_, ?_, ?_⟩
  · intro k hk
    unfold generate_pdf_order
    rw [(hperm (m.map Prod.fst)).count_eq]
    exact List.count_eq_one_of_mem hnd hk
  · intro m2 h2
    haveI : IsAntisymm String (fun a b => pyStrLe a b = true) := ⟨pyStrLe_antisymm⟩
    refine List.eq_of_perm_of_sorted ?_ (hsorted _) (hsorted _)
    exact ((hperm _).trans h2).trans (hperm _).symm
  · intro output
    refine ⟨rfl, ?_⟩
    intro d hd
    simp only [mainBothDocs, List.mem_cons, List.not_mem_nil, or_false] at hd
    rcases hd with rfl | rfl <;> rfl

/-- Witness for `generate_pdf_label_order`: the key `A` of the two-tote model
inserted as `B`, `A` appears exactly once in the label order. -/
theorem generate_pdf_label_order_witness :
    (generate_pdf_order exTotesBA).count "A" = 1 :=
  (generate_pdf_label_order exTotesBA (by decide)).2.2.1 "A" (by decide)

/-- Witness for `primary_absent_fields_default_to_first_cell`: a header with
only `TOTE ID` leaves the parent id unchanged on a one-cell row. -/
theorem primary_absent_fields_default_witness :
    (primaryUpdate (buildHeaderIndex ["TOTE ID"]) ["P0"] { tote_id := "T1" }).map
      Tote.parent_id = Except.ok ({ tote_id := "T1" } : Tote).parent_id :=
  (primary_absent_fields_default_to_first_cell (buildHeaderIndex ["TOTE ID"]) ["P0"]
    { tote_id := "T1" } "P0" rfl (by decide) (by decide)).2.2.2.1

/-! ## Claim C2 (first-write-wins fields, last-write-wins parent id) -/

/-- A `get(name, 0)` cell access succeeds on a long-enough row and returns
`specCell`. -/
theorem fetch0_of_lt (hi : List (String × Nat)) (row : List String) (n : String)
    (h : (lookupIdx hi n).getD 0 < row.length) :
    fetch0 hi row n = Except.ok (specCell hi row n) := by
  unfold fetch0 specCell
  rw [List.getElem?_eq_getElem h, List.getD_eq_getElem?_getD,
    List.getElem?_eq_getElem h]
  rfl

/-- One PRIMARY row update succeeds on a long-enough row, and its effect on
the four tote header fields: `or`-based first-write-wins for title, location
and qrdata, last-non-empty-wins for the parent id. -/
theorem primaryUpdate_fields (hi : List (String × Nat)) (row : List String) (t : Tote)
    (hrow : ∀ n ∈ primaryFieldNames, ((lookupIdx hi n).getD 0) < row.length) :
    ∃ t1, primaryUpdate hi row t = Except.ok t1 ∧
      t1.title = (if t.title ≠ "" then t.title else pyStrip (specCell hi row "TOTE TITLE")) ∧
      t1.location =
        (if t.location ≠ "" then t.location else pyStrip (specCell hi row "TOTE LOCATION")) ∧
      t1.qrdata = (if qrTruthy t.qrdata then t.qrdata
        else if pyStrip (specCell hi row "QRDATA") = "" then none
          else some (pyStrip (specCell hi row "QRDATA"))) ∧
      t1.parent_id =
        (if parentCellValue hi row ≠ "" then some (parentCellValue hi row) else t.parent_id) := by
  have h1 := fetch0_of_lt hi row "TOTE TITLE" (hrow _ (by decide))
  have h2 := fetch0_of_lt hi row "TOTE LOCATION" (hrow _ (by decide))
  have h3 := fetch0_of_lt hi row "QRDATA" (hrow _ (by decide))
  have h4 := fetch0_of_lt hi row "ITEM TITLE" (hrow _ (by decide))
  have h5 := fetch0_of_lt hi row "ITEM DESCRIPTION" (hrow _ (by decide))
  have h6 := fetch0_of_lt hi row "ITEM QUANTITY" (hrow _ (by decide))
  have h7 := fetch0_of_lt hi row "IMAGES" (hrow _ (by decide))
  refine ⟨(({ t with
      title := if t.title ≠ "" then t.title else pyStrip (specCell hi row "TOTE TITLE"),
      location := if t.location ≠ "" then t.location else pyStrip (specCell hi row "TOTE LOCATION"),
      qrdata := if qrTruthy t.qrdata then t.qrdata
        else if pyStrip (specCell hi row "QRDATA") = "" then none
          else some (pyStrip (specCell hi row "QRDATA")),
      parent_id := if parentCellValue hi row ≠ "" then some (parentCellValue hi row)
        else t.parent_id } : Tote).add_item
      (pyStrip (specCell hi row "ITEM TITLE")) (pyStrip (specCell hi row "ITEM DESCRIPTION"))
      (some (pyStrip (specCell hi row "ITEM QUANTITY")))
      (if pyStrip (specCell hi row "IMAGES") ≠ "" then
        ((pySplitStr (pyStrip (specCell hi row "IMAGES"))).filter
          fun p => pyStartsWith "http" p).head?
      else none)), ?_, ?_, ?_, ?_, ?_⟩
  · unfold primaryUpdate
    by_cases hc1 : t.title ≠ "" <;> by_cases hc2 : t.location ≠ "" <;>
      by_cases hc3 : qrTruthy t.qrdata = true <;>
      simp [hc1, hc2, hc3, h1, h2, h3, h4, h5, h6, h7,
        fieldOr, qrOr, Except.map, Except.bind, Bind.bind, pure, Except.pure]
  · rw [add_item_title]
  · rw [add_item_location]
  · rw [add_item_qrdata]
  · rw [add_item_parent_id]

/-- Folding PRIMARY rows over an arbitrary starting tote: first-write-wins
for title/location/qrdata, last-non-empty-wins for parent id. (The qrdata
hypothesis records that the code never stores `some ""` there.) -/
theorem primary_merge_aux (hi : List (String × Nat)) (rows : List (List String))
    (t : Tote)
    (hfull : ∀ row ∈ rows, ∀ n ∈ primaryFieldNames, ((lookupIdx hi n).getD 0) < row.length)
    (hqr : qrTruthy t.qrdata = false → t.qrdata = none) :
    ∃ t', rows.foldlM (fun a row => primaryUpdate hi row a) t = Except.ok t' ∧
      t'.title = (if t.title ≠ "" then t.title
        else (firstNE (rows.map fun r => pyStrip (specCell hi r "TOTE TITLE"))).getD "") ∧
      t'.location = (if t.location ≠ "" then t.location
        else (firstNE (rows.map fun r => pyStrip (specCell hi r "TOTE LOCATION"))).getD "") ∧
      t'.qrdata = (if qrTruthy t.qrdata then t.qrdata
        else firstNE (rows.map fun r => pyStrip (specCell hi r "QRDATA"))) ∧
      t'.parent_id = (match lastNE (rows.map fun r => parentCellValue hi r) with
        | some v => some v
        | none => t.parent_id) := by
  induction rows generalizing t with
  | nil =>
    refine ⟨t, rfl, ?_, ?_, ?_, rfl⟩
    · by_cases h : t.title ≠ "" <;> simp [h, firstNE]
      rw [not_not] at h
      exact h
    · by_cases h : t.location ≠ "" <;> simp [h, firstNE]
      rw [not_not] at h
      exact h
    · by_cases h : qrTruthy t.qrdata = true <;> simp [h, firstNE]
      exact hqr (by simp [h])
  | cons row rows ih =>
    obtain ⟨t1, hupd, ht1, hl1, hq1, hp1⟩ :=
      primaryUpdate_fields hi row t (hfull row (List.mem_cons_self row rows))
    have hqr1 : qrTruthy t1.qrdata = false → t1.qrdata = none := by
      intro hfalse
      rw [hq1] at hfalse ⊢
      by_cases hc : qrTruthy t.qrdata = true
      · rw [if_pos hc] at hfalse ⊢
        rw [hc] at hfalse
        cases hfalse
      · rw [if_neg hc] at hfalse ⊢
        by_cases hz : pyStrip (specCell hi row "QRDATA") = ""
        · rw [if_pos hz]
        · rw [if_neg hz] at hfalse
          simp [qrTruthy, hz] at hfalse
    obtain ⟨t', hfold, ht', hl', hq', hp'⟩ :=
      ih t1 (fun r hr => hfull r (List.mem_cons_of_mem row hr)) hqr1
    refine ⟨t', ?_, ?_, ?_, ?_, ?_⟩
    · rw [List.foldlM_cons, hupd]
      exact hfold
    · by_cases hc : t.title ≠ ""
      · have e1 : t1.title = t.title := by rw [ht1, if_pos hc]
        rw [ht', e1, if_pos hc, if_pos hc]
      · rw [not_not] at hc
        have e1 : t1.title = pyStrip (specCell hi row "TOTE TITLE") := by
          rw [ht1, if_neg (by simp [hc])]
        rw [List.map_cons]
        by_cases hz : pyStrip (specCell hi row "TOTE TITLE") = ""
        · have e2 : t1.title = "" := by rw [e1, hz]
          rw [ht', e2, if_neg (by simp), if_neg (by simp [hc])]
          simp only [firstNE]
          rw [List.find?_cons_of_neg _ (by simp [hz])]
        · rw [ht', e1, if_pos (by simpa using hz), if_neg (by simp [hc])]
          simp only [firstNE]
          rw [List.find?_cons_of_pos _ (by simp [hz])]
          rfl
    · by_cases hc : t.location ≠ ""
      · have e1 : t1.location = t.location := by rw [hl1, if_pos hc]
        rw [hl', e1, if_pos hc, if_pos hc]
      · rw [not_not] at hc
        have e1 : t1.location = pyStrip (specCell hi row "TOTE LOCATION") := by
          rw [hl1, if_neg (by simp [hc])]
        rw [List.map_cons]
        by_cases hz : pyStrip (specCell hi row "TOTE LOCATION") = ""
        · have e2 : t1.location = "" := by rw [e1, hz]
          rw [hl', e2, if_neg (by simp), if_neg (by simp [hc])]
          simp only [firstNE]
          rw [List.find?_cons_of_neg _ (by simp [hz])]
        · rw [hl', e1, if_pos (by simpa using hz), if_neg (by simp [hc])]
          simp only [firstNE]
          rw [List.find?_cons_of_pos _ (by simp [hz])]
          rfl
    · by_cases hc : qrTruthy t.qrdata = true
      · have e1 : t1.qrdata = t.qrdata := by rw [hq1, if_pos hc]
        have e2 : qrTruthy t1.qrdata = true := by rw [e1]; exact hc
        rw [hq', if_pos e2, e1, if_pos hc]
      · rw [List.map_cons]
        by_cases hz : pyStrip (specCell hi row "QRDATA") = ""
        · have e1 : t1.qrdata = none := by rw [hq1, if_neg hc, if_pos hz]
          rw [hq', if_neg (by rw [e1]; simp [qrTruthy]), if_neg hc]
          simp only [firstNE]
          rw [List.find?_cons_of_neg _ (by simp [hz])]
        · have e1 : t1.qrdata = some (pyStrip (specCell hi row "QRDATA")) := by
            rw [hq1, if_neg hc, if_neg hz]
          rw [hq', if_pos (by rw [e1]; simpa [qrTruthy] using hz), e1, if_neg hc]
          simp only [firstNE]
          rw [List.find?_cons_of_pos _ (by simp [hz])]
    · rw [hp', hp1, List.map_cons]
      have hsplit :
          lastNE ((parentCellValue hi row) :: (rows.map fun r => parentCellValue hi r)) =
          (lastNE (rows.map fun r => parentCellValue hi r)).or
            (if parentCellValue hi row ≠ "" then some (parentCellValue hi row) else none) := by
        unfold lastNE
        rw [List.reverse_cons, List.find?_append]
        congr 1
        by_cases hz : parentCellValue hi row ≠ ""
        · rw [List.find?_cons_of_pos _ (by simp [hz]), if_pos hz]
        · rw [List.find?_cons_of_neg _ (by simpa using hz), if_neg hz]
          rfl
      rw [hsplit]
      rcases hlast : lastNE (rows.map fun r => parentCellValue hi r) with _ | v
      · by_cases hz : parentCellValue hi row ≠ ""
        · rw [if_pos hz]
          simp [Option.or, hz]
        · have hz2 : parentCellValue hi row = "" := not_not.mp hz
          rw [if_neg hz]
          simp [Option.or, hz2]
      · simp [Option.or]

/-- Claim C2: across a sequence of (long-enough) PRIMARY data rows folded into
a fresh tote, title, location and QR payload each end up as the first
non-empty (stripped) cell value seen for that field, while the parent id ends
up as the last non-empty parent cell seen. -/
theorem primary_rows_first_write_wins (hi : List (String × Nat))
    (rows : List (List String)) (tid : String)
    (hfull : ∀ row ∈ rows, ∀ n ∈ primaryFieldNames,
      ((lookupIdx hi n).getD 0) < row.length) :
    ∃ t', rows.foldlM (fun a row => primaryUpdate hi row a) ({ tote_id := tid } : Tote)
        = Except.ok t' ∧
      t'.title = (firstNE (rows.map fun r => pyStrip (specCell hi r "TOTE TITLE"))).getD "" ∧
      t'.location =
        (firstNE (rows.map fun r => pyStrip (specCell hi r "TOTE LOCATION"))).getD "" ∧
      t'.qrdata = firstNE (rows.map fun r => pyStrip (specCell hi r "QRDATA")) ∧
      t'.parent_id = lastNE (rows.map fun r => parentCellValue hi r) := by
  obtain ⟨t', hfold, ht, hl, hq, hp⟩ :=
    primary_merge_aux hi rows { tote_id := tid } hfull (fun _ => rfl)
  refine ⟨t', hfold, ?_, ?_, ?_, ?_⟩
  · simpa using ht
  · simpa using hl
  · simpa [qrTruthy] using hq
  · rw [hp]
    rcases lastNE (rows.map fun r => parentCellValue hi r) with _ | v <;> rfl

/-- Witness for `primary_rows_first_write_wins` on two concrete rows of the
canonical header (title from the first row wins, parent from the second). -/
theorem primary_rows_first_write_wins_witness :
    ∃ t', exRowsMerge.foldlM (fun a row => primaryUpdate exPrimaryHindex row a)
        ({ tote_id := "T1" } : Tote) = Except.ok t' ∧
      t'.title =
        (firstNE (exRowsMerge.map fun r =>
          pyStrip (specCell exPrimaryHindex r "TOTE TITLE"))).getD "" ∧
      t'.location =
        (firstNE (exRowsMerge.map fun r =>
          pyStrip (specCell exPrimaryHindex r "TOTE LOCATION"))).getD "" ∧
      t'.qrdata = firstNE (exRowsMerge.map fun r =>
        pyStrip (specCell exPrimaryHindex r "QRDATA")) ∧
      t'.parent_id = lastNE (exRowsMerge.map fun r => parentCellValue exPrimaryHindex r) :=
  primary_rows_first_write_wins exPrimaryHindex exRowsMerge "T1" (by decide)

/-! ## Claim C5 (`ellipsize`) -/

/-- Character-sum widths are non-negative for non-negative per-char widths. -/
theorem widthOfL_nonneg (cw : Char → ℚ) (hcw : ∀ c, 0 ≤ cw c) (l : List Char) :
    0 ≤ widthOfL cw l := by
  refine List.sum_nonneg ?_
  intro x hx
  obtain ⟨c, _, rfl⟩ := List.mem_map.mp hx
  exact hcw c

/-- Additivity of `widthOfL` over append. -/
theorem widthOfL_append (cw : Char → ℚ) (a b : List Char) :
    widthOfL cw (a ++ b) = widthOfL cw a + widthOfL cw b := by
  simp [widthOfL]

/-- Width of a `String.mk` is `widthOfL` of its chars. -/
theorem widthOf_mk (cw : Char → ℚ) (l : List Char) :
    widthOf cw (String.mk l) = widthOfL cw l := rfl

/-- Width of `text[:k] + "…"`. -/
theorem widthOf_takeEll (cw : Char → ℚ) (text : String) (k : Nat) :
    widthOf cw (takeEll text k) = widthOfL cw (text.data.take k) + cw ellChar := by
  rw [takeEll, widthOf_mk, widthOfL_append]
  simp [widthOfL]

/-- Prefix widths are monotone in the prefix length. -/
theorem widthOfL_take_mono (cw : Char → ℚ) (hcw : ∀ c, 0 ≤ cw c) (l : List Char)
    (j k : Nat) (hjk : j ≤ k) :
    widthOfL cw (l.take j) ≤ widthOfL cw (l.take k) := by
  have h1 : l.take j = (l.take k).take j := by rw [List.take_take, min_eq_left hjk]
  rw [h1]
  conv_rhs => rw [← List.take_append_drop j (l.take k)]
  rw [widthOfL_append]
  have := widthOfL_nonneg cw hcw ((l.take k).drop j)
  linarith

/-- The fit test `width(text[:k] + "…") ≤ max_w` is antitone in `k`. -/
theorem takeEll_fit_mono (cw : Char → ℚ) (hcw : ∀ c, 0 ≤ cw c) (text : String)
    (max_w : ℚ) (j k : Nat) (hjk : j ≤ k)
    (hk : widthOf cw (takeEll text k) ≤ max_w) :
    widthOf cw (takeEll text j) ≤ max_w := by
  rw [widthOf_takeEll] at hk ⊢
  have := widthOfL_take_mono cw hcw text.data j k hjk
  linarith

/-- Invariant of the binary-search loop of `ellipsize`: starting from a range
whose left edge fits (or is 0) and whose right edge does not, it returns the
least non-fitting index in the range. -/
theorem ellipsizeLoop_spec (cw : Char → ℚ) (max_w : ℚ) (text : String) :
    ∀ lo hi, lo ≤ hi →
      (lo = 0 ∨ widthOf cw (takeEll text (lo - 1)) ≤ max_w) →
      ¬ (widthOf cw (takeEll text hi) ≤ max_w) →
      lo ≤ ellipsizeLoop cw max_w text lo hi ∧
      ellipsizeLoop cw max_w text lo hi ≤ hi ∧
      (ellipsizeLoop cw max_w text lo hi = 0 ∨
        widthOf cw (takeEll text (ellipsizeLoop cw max_w text lo hi - 1)) ≤ max_w) ∧
      ¬ (widthOf cw (takeEll text (ellipsizeLoop cw max_w text lo hi)) ≤ max_w) := by
  intro lo hi
  induction lo, hi using ellipsizeLoop.induct cw max_w text with
  | case1 lo hi hlt mid hP ih =>
    intro _ _ hhi
    have hmid : mid < hi := by omega
    obtain ⟨i1, i2, i3, i4⟩ := ih (by omega) (Or.inr (by simpa using hP)) hhi
    have hunf : ellipsizeLoop cw max_w text lo hi = ellipsizeLoop cw max_w text (mid + 1) hi := by
      rw [ellipsizeLoop]
      simp only [dif_pos hlt, if_pos hP]
    rw [hunf]
    exact ⟨by omega, i2, i3, i4⟩
  | case2 lo hi hlt mid hP ih =>
    intro hle hinv _
    have hmidge : lo ≤ mid := by omega
    obtain ⟨i1, i2, i3, i4⟩ := ih hmidge hinv hP
    have hunf : ellipsizeLoop cw max_w text lo hi = ellipsizeLoop cw max_w text lo mid := by
      rw [ellipsizeLoop]
      simp only [dif_pos hlt, if_neg hP]
    rw [hunf]
    exact ⟨i1, by omega, i3, i4⟩
  | case3 lo hi hlt =>
    intro hle hinv hhi
    have hunf : ellipsizeLoop cw max_w text lo hi = lo := by
      rw [ellipsizeLoop]
      simp only [dif_neg hlt]
    rw [hunf]
    have : lo = hi := by omega
    subst this
    exact ⟨le_refl _, le_refl _, hinv, hhi⟩

/-- Claim C5: for a non-negative width model and any bound at least the width
of the ellipsis character: a fitting text is returned unchanged; a
non-fitting text is returned as `text[:k] + "…"` for the largest prefix
length `k` whose ellipsized form fits (the ellipsis alone when `k = 0`), and
in particular the returned string's width is within the bound. -/
theorem ellipsize_spec (cw : Char → ℚ) (hcw : ∀ c, 0 ≤ cw c) (text : String)
    (max_w : ℚ) (hell : widthOf cw (String.mk [ellChar]) ≤ max_w) :
    (widthOf cw text ≤ max_w → ellipsize cw text max_w = text) ∧
    (max_w < widthOf cw text →
      ∃ k, k ≤ text.data.length ∧ ellipsize cw text max_w = takeEll text k ∧
        widthOf cw (takeEll text k) ≤ max_w ∧
        ∀ j, j ≤ text.data.length → widthOf cw (takeEll text j) ≤ max_w → j ≤ k) := by
  constructor
  · intro hfit
    rw [ellipsize, if_pos hfit]
  · intro hgt
    have hnofit : ¬ (widthOf cw text ≤ max_w) := not_le.mpr hgt
    have hPlen : ¬ (widthOf cw (takeEll text text.data.length) ≤ max_w) := by
      rw [widthOf_takeEll, List.take_length]
      have h0 : 0 ≤ cw ellChar := hcw ellChar
      have : widthOf cw text = widthOfL cw text.data := rfl
      rw [this] at hgt
      linarith
    obtain ⟨hlo, hhi, hinv, hr⟩ :=
      ellipsizeLoop_spec cw max_w text 0 text.data.length (Nat.zero_le _)
        (Or.inl rfl) hPlen
    set r := ellipsizeLoop cw max_w text 0 text.data.length with hrdef
    have hP0 : widthOf cw (takeEll text 0) ≤ max_w := by
      rw [show takeEll text 0 = String.mk [ellChar] from rfl]
      exact hell
    have hr0 : r ≠ 0 := by
      intro h0
      rw [h0] at hr
      exact hr hP0
    have hfitr : widthOf cw (takeEll text (r - 1)) ≤ max_w := hinv.resolve_left hr0
    refine ⟨r - 1, by omega, ?_, hfitr, ?_⟩
    · rw [ellipsize, if_neg hnofit]
      have : max (r - 1) 0 = r - 1 := Nat.max_zero _
      rw [← hrdef, this]
    · intro j hj hPj
      by_contra hjk
      have hrj : r ≤ j := by omega
      exact hr (takeEll_fit_mono cw hcw text max_w r j hrj hPj)

/-- Witness for `ellipsize_spec`: the three-char text `abc` at unit char
widths with bound 2 is truncated to the longest fitting ellipsized prefix. -/
theorem ellipsize_spec_witness :
    ∃ k, k ≤ "abc".data.length ∧
      ellipsize exUnitWidth "abc" 2 = takeEll "abc" k ∧
      widthOf exUnitWidth (takeEll "abc" k) ≤ 2 ∧
      ∀ j, j ≤ "abc".data.length → widthOf exUnitWidth (takeEll "abc" j) ≤ 2 → j ≤ k :=
  (ellipsize_spec exUnitWidth (fun _ => by norm_num [exUnitWidth]) "abc" 2
    (by norm_num [widthOf, exUnitWidth])).2
    (by
      rw [show widthOf exUnitWidth "abc" = (( "abc".data.map exUnitWidth).sum) from rfl,
        show "abc".data = ['a', 'b', 'c'] from rfl]
      norm_num [exUnitWidth])

/-! ## Claim C4 (`wrap_text`) -/

/-- Rebuilding a string from its chars is the identity. -/
theorem mk_data (s : String) : String.mk s.data = s := rfl

/-- Every piece produced by the split worker is a word: non-empty and free of
whitespace (provided the accumulator is). -/
theorem splitWSAux_words (l : List Char) :
    ∀ acc, (∀ c ∈ acc, ¬ c.isWhitespace) →
      ∀ w ∈ splitWSAux l acc, wordOkL w := by
  induction l with
  | nil =>
    intro acc hacc w hw
    cases acc with
    | nil => simp [splitWSAux] at hw
    | cons a as =>
      rw [show splitWSAux [] (a :: as) = [(a :: as).reverse] from by
        simp [splitWSAux]] at hw
      rcases List.mem_singleton.mp hw with rfl
      refine ⟨by simp, ?_⟩
      intro c hc
      exact hacc c (List.mem_reverse.mp hc)
  | cons x xs ih =>
    intro acc hacc w hw
    by_cases hx : x.isWhitespace
    · rw [show splitWSAux (x :: xs) acc =
          (if acc.isEmpty then splitWSAux xs [] else acc.reverse :: splitWSAux xs []) from by
        simp [splitWSAux, hx]] at hw
      cases acc with
      | nil => exact ih [] (by simp) w (by simpa using hw)
      | cons a as =>
        rw [if_neg (by simp)] at hw
        rcases List.mem_cons.mp hw with rfl | hw2
        · refine ⟨by simp, ?_⟩
          intro c hc
          exact hacc c (List.mem_reverse.mp hc)
        · exact ih [] (by simp) w hw2
    · rw [show splitWSAux (x :: xs) acc = splitWSAux xs (x :: acc) from by
        simp [splitWSAux, hx]] at hw
      refine ih (x :: acc) ?_ w hw
      intro c hc
      rcases List.mem_cons.mp hc with rfl | hc2
      · exact hx
      · exact hacc c hc2

/-- Every word of `pySplitStr` is non-empty and whitespace-free. -/
theorem pySplitStr_words (s : String) : ∀ w ∈ pySplitStr s, wordOkS w := by
  intro w hw
  obtain ⟨wl, hwl, rfl⟩ := List.mem_map.mp hw
  exact splitWSAux_words s.data [] (by simp) wl hwl

/-- The split worker consumes a whitespace-free chunk into its accumulator. -/
theorem splitWSAux_append_word (w : List Char) :
    ∀ acc rest, (∀ c ∈ w, ¬ c.isWhitespace) →
      splitWSAux (w ++ rest) acc = splitWSAux rest (w.reverse ++ acc) := by
  induction w with
  | nil => intro acc rest _; simp
  | cons c w' ih =>
    intro acc rest hok
    have hc : ¬ c.isWhitespace := hok c (List.mem_cons_self c w')
    rw [List.cons_append, show splitWSAux (c :: (w' ++ rest)) acc =
        splitWSAux (w' ++ rest) (c :: acc) from by simp [splitWSAux, hc]]
    rw [ih (c :: acc) rest (fun d hd => hok d (List.mem_cons_of_mem c hd))]
    simp

/-- Splitting a space-joined list of words returns exactly those words. -/
theorem splitWSL_joinSpL (ws : List (List Char)) (h : ∀ w ∈ ws, wordOkL w) :
    splitWSL (joinSpL ws) = ws := by
  induction ws with
  | nil => rfl
  | cons w ws ih =>
    obtain ⟨hne, hchars⟩ := h w (List.mem_cons_self w ws)
    cases ws with
    | nil =>
      show splitWSAux (joinSpL [w]) [] = [w]
      rw [show joinSpL [w] = w ++ [] from by simp [joinSpL]]
      rw [splitWSAux_append_word w [] [] hchars]
      rw [show splitWSAux [] (w.reverse ++ []) = [w] from by
        simp [splitWSAux, List.isEmpty_eq_true, hne]]
    | cons v ws2 =>
      show splitWSAux (joinSpL (w :: v :: ws2)) [] = w :: v :: ws2
      rw [show joinSpL (w :: v :: ws2) = w ++ ' ' :: joinSpL (v :: ws2) from rfl]
      rw [splitWSAux_append_word w [] (' ' :: joinSpL (v :: ws2)) hchars]
      rw [show splitWSAux (' ' :: joinSpL (v :: ws2)) (w.reverse ++ []) =
          w :: splitWSAux (joinSpL (v :: ws2)) [] from by
        simp only [List.append_nil]
        rw [show splitWSAux (' ' :: joinSpL (v :: ws2)) w.reverse =
            (if w.reverse.isEmpty then splitWSAux (joinSpL (v :: ws2)) []
             else w.reverse.reverse :: splitWSAux (joinSpL (v :: ws2)) []) from by
          simp [splitWSAux]]
        rw [if_neg (by simp [hne])]
        rw [List.reverse_reverse]]
      rw [show splitWSAux (joinSpL (v :: ws2)) [] = splitWSL (joinSpL (v :: ws2)) from rfl,
        ih (fun u hu => h u (List.mem_cons_of_mem w hu))]

/-- Splitting a `joinSpace` of words returns the given words. -/
theorem pySplitStr_joinSpace (ws : List String) (h : ∀ w ∈ ws, wordOkS w) :
    pySplitStr (joinSpace ws) = ws := by
  unfold pySplitStr joinSpace splitWSL
  rw [show (String.mk (joinSpL (ws.map String.data))).data =
      joinSpL (ws.map String.data) from rfl]
  rw [show splitWSAux (joinSpL (ws.map String.data)) [] =
      splitWSL (joinSpL (ws.map String.data)) from rfl]
  rw [splitWSL_joinSpL _ (by
    intro w hw
    obtain ⟨u, hu, rfl⟩ := List.mem_map.mp hw
    exact h u hu)]
  rw [List.map_map]
  rw [show (String.mk ∘ String.data) = id from funext (fun _ => rfl), List.map_id]

/-- The space-join of non-empty whitespace-free words starts with a
non-whitespace char. -/
theorem joinSpL_head (ws : List (List Char)) (hne : ws ≠ [])
    (h : ∀ w ∈ ws, wordOkL w) :
    ∃ c t, joinSpL ws = c :: t ∧ ¬ c.isWhitespace := by
  cases ws with
  | nil => exact absurd rfl hne
  | cons w ws =>
    obtain ⟨hwne, hchars⟩ := h w (List.mem_cons_self w ws)
    cases hw : w with
    | nil => exact absurd hw hwne
    | cons c w' =>
      subst hw
      cases ws with
      | nil => exact ⟨c, w', rfl, hchars c (List.mem_cons_self c w')⟩
      | cons v ws2 =>
        exact ⟨c, w' ++ ' ' :: joinSpL (v :: ws2), rfl,
          hchars c (List.mem_cons_self c w')⟩

/-- The space-join of non-empty whitespace-free words ends with a
non-whitespace char (stated via `reverse`). -/
theorem joinSpL_reverse_head (ws : List (List Char)) (hne : ws ≠ [])
    (h : ∀ w ∈ ws, wordOkL w) :
    ∃ c t, (joinSpL ws).reverse = c :: t ∧ ¬ c.isWhitespace := by
  induction ws with
  | nil => exact absurd rfl hne
  | cons w ws ih =>
    obtain ⟨hwne, hchars⟩ := h w (List.mem_cons_self w ws)
    cases ws with
    | nil =>
      have hrne : w.reverse ≠ [] := by simpa using hwne
      cases hr : w.reverse with
      | nil => exact absurd hr hrne
      | cons c t =>
        refine ⟨c, t, by rw [show joinSpL [w] = w from rfl, hr], ?_⟩
        have : c ∈ w.reverse := by rw [hr]; exact List.mem_cons_self c t
        exact hchars c (List.mem_reverse.mp this)
    | cons v ws2 =>
      obtain ⟨c, t, hct, hcw⟩ := ih (by simp) (fun u hu => h u (List.mem_cons_of_mem w hu))
      refine ⟨c, t ++ ' ' :: w.reverse, ?_, hcw⟩
      rw [show joinSpL (w :: v :: ws2) = w ++ ' ' :: joinSpL (v :: ws2) from rfl]
      rw [List.reverse_append, List.reverse_cons, hct]
      simp

/-- Stripping a space-join of words is the identity. -/
theorem pyStripL_joinSpL (ws : List (List Char)) (hne : ws ≠ [])
    (h : ∀ w ∈ ws, wordOkL w) :
    pyStripL (joinSpL ws) = joinSpL ws := by
  obtain ⟨c, t, hct, hcw⟩ := joinSpL_head ws hne h
  obtain ⟨c', t', hct', hcw'⟩ := joinSpL_reverse_head ws hne h
  unfold pyStripL
  rw [hct, List.dropWhile_cons]
  rw [if_neg (by simpa using hcw)]
  rw [← hct, hct', List.dropWhile_cons, if_neg (by simpa using hcw'), ← hct',
    List.reverse_reverse]

/-- Stripping the `" ".join` candidate of `wrap_text` is the identity. -/
theorem pyStrip_joinSpace (ws : List String) (hne : ws ≠ [])
    (h : ∀ w ∈ ws, wordOkS w) :
    pyStrip (joinSpace ws) = joinSpace ws := by
  unfold pyStrip joinSpace
  rw [show (String.mk (joinSpL (ws.map String.data))).data =
      joinSpL (ws.map String.data) from rfl]
  rw [pyStripL_joinSpL _ (by simpa using hne) (by
    intro w hw
    obtain ⟨u, hu, rfl⟩ := List.mem_map.mp hw
    exact h u hu)]

/-- Every member word is at most as wide as the space-join containing it. -/
theorem widthOfL_le_joinSpL (cw : Char → ℚ) (hcw : ∀ c, 0 ≤ cw c)
    (ws : List (List Char)) (w : List Char) (hw : w ∈ ws) :
    widthOfL cw w ≤ widthOfL cw (joinSpL ws) := by
  induction ws with
  | nil => cases hw
  | cons x ws ih =>
    cases ws with
    | nil =>
      rcases List.mem_singleton.mp hw with rfl
      exact le_refl _
    | cons v ws2 =>
      rw [show joinSpL (x :: v :: ws2) = x ++ ' ' :: joinSpL (v :: ws2) from rfl]
      rw [widthOfL_append]
      have hrest : widthOfL cw (' ' :: joinSpL (v :: ws2)) =
          cw ' ' + widthOfL cw (joinSpL (v :: ws2)) := by simp [widthOfL]
      rcases List.mem_cons.mp hw with rfl | hw2
      · have h1 := widthOfL_nonneg cw hcw (joinSpL (v :: ws2))
        have h2 := hcw ' '
        rw [hrest]
        linarith
      · have h3 := ih hw2
        have h1 := widthOfL_nonneg cw hcw x
        have h2 := hcw ' '
        rw [hrest]
        linarith

/-- String-level version of `widthOfL_le_joinSpL`. -/
theorem widthOf_le_joinSpace (cw : Char → ℚ) (hcw : ∀ c, 0 ≤ cw c)
    (ws : List String) (w : String) (hw : w ∈ ws) :
    widthOf cw w ≤ widthOf cw (joinSpace ws) := by
  unfold joinSpace
  rw [widthOf_mk]
  exact widthOfL_le_joinSpL cw hcw (ws.map String.data) w.data
    (List.mem_map.mpr ⟨w, hw, rfl⟩)

/-- The word loop preserves words: flattening the split of its lines yields
the pending line's words followed by the remaining words. -/
theorem wrapAux_flatten (cw : Char → ℚ) (maxW : ℚ) (words : List String) :
    ∀ cur, (∀ w ∈ cur, wordOkS w) → (∀ w ∈ words, wordOkS w) →
      ((wrapAux cw maxW cur words).map pySplitStr).flatten =
        (if cur.isEmpty then [] else cur) ++ words := by
  induction words with
  | nil =>
    intro cur hcur _
    cases cur with
    | nil => rfl
    | cons x xs =>
      rw [show wrapAux cw maxW (x :: xs) [] = [joinSpace (x :: xs)] from by
        simp [wrapAux]]
      simp only [List.map_cons, List.map_nil, List.flatten]
      rw [pySplitStr_joinSpace (x :: xs) hcur]
      simp
  | cons w ws ih =>
    intro cur hcur hwords
    have hw : wordOkS w := hwords w (List.mem_cons_self w ws)
    have hws : ∀ u ∈ ws, wordOkS u := fun u hu => hwords u (List.mem_cons_of_mem w hu)
    have hcurw : ∀ u ∈ cur ++ [w], wordOkS u := by
      intro u hu
      rcases List.mem_append.mp hu with h1 | h1
      · exact hcur u h1
      · rcases List.mem_singleton.mp h1 with rfl
        exact hw
    rw [show wrapAux cw maxW cur (w :: ws) =
        (if widthOf cw (pyStrip (joinSpace (cur ++ [w]))) ≤ maxW then
          wrapAux cw maxW (cur ++ [w]) ws
        else
          (if cur.isEmpty then [] else [joinSpace cur]) ++ wrapAux cw maxW [w] ws) from by
      simp [wrapAux]]
    by_cases hfit : widthOf cw (pyStrip (joinSpace (cur ++ [w]))) ≤ maxW
    · rw [if_pos hfit, ih (cur ++ [w]) hcurw hws]
      rw [if_neg (by simp)]
      cases cur with
      | nil => simp
      | cons x xs => simp
    · rw [if_neg hfit]
      rw [List.map_append, List.flatten_append, ih [w] (by
        intro u hu
        rcases List.mem_singleton.mp hu with rfl
        exact hw) hws]
      cases cur with
      | nil => simp
      | cons x xs =>
        rw [if_neg (by simp), if_neg (by simp)]
        simp only [List.map_cons, List.map_nil, List.flatten]
        rw [pySplitStr_joinSpace (x :: xs) hcur]
        simp

/-- A word wider than the bound, placed as the pending line, survives as a
line of its own. -/
theorem wrapAux_big_head (cw : Char → ℚ) (hcw : ∀ c, 0 ≤ cw c) (maxW : ℚ)
    (u : String) (hu : wordOkS u) (hbig : maxW < widthOf cw u) :
    ∀ ws, (∀ w ∈ ws, wordOkS w) → u ∈ wrapAux cw maxW [u] ws := by
  intro ws
  induction ws with
  | nil =>
    intro _
    rw [show wrapAux cw maxW [u] [] = [joinSpace [u]] from by simp [wrapAux]]
    rw [show joinSpace [u] = u from by unfold joinSpace; simp [joinSpL, mk_data]]
    exact List.mem_singleton.mpr rfl
  | cons v ws' ih =>
    intro hws
    have hv : wordOkS v := hws v (List.mem_cons_self v ws')
    have huv : ∀ w ∈ [u, v], wordOkS w := by
      intro w hw
      rcases List.mem_cons.mp hw with rfl | hw2
      · exact hu
      · rcases List.mem_singleton.mp hw2 with rfl
        exact hv
    have hnofit : ¬ (widthOf cw (pyStrip (joinSpace ([u] ++ [v]))) ≤ maxW) := by
      rw [show ([u] ++ [v]) = [u, v] from rfl, pyStrip_joinSpace [u, v] (by simp) huv]
      have := widthOf_le_joinSpace cw hcw [u, v] u (List.mem_cons_self u [v])
      intro hle
      linarith
    rw [show wrapAux cw maxW [u] (v :: ws') =
        (if widthOf cw (pyStrip (joinSpace ([u] ++ [v]))) ≤ maxW then
          wrapAux cw maxW ([u] ++ [v]) ws'
        else [joinSpace [u]] ++ wrapAux cw maxW [v] ws') from by
      simp [wrapAux]]
    rw [if_neg hnofit]
    refine List.mem_append.mpr (Or.inl ?_)
    rw [show joinSpace [u] = u from by unfold joinSpace; simp [joinSpL, mk_data]]
    exact List.mem_singleton.mpr rfl

/-- Any word wider than the bound ends up as a line of its own. -/
theorem wrapAux_big_mem (cw : Char → ℚ) (hcw : ∀ c, 0 ≤ cw c) (maxW : ℚ)
    (words : List String) :
    ∀ cur, (∀ w ∈ cur, wordOkS w) → (∀ w ∈ words, wordOkS w) →
      ∀ u ∈ words, maxW < widthOf cw u → u ∈ wrapAux cw maxW cur words := by
  induction words with
  | nil =>
    intro cur _ _ u hu
    cases hu
  | cons w ws ih =>
    intro cur hcur hwords u hu hbig
    have hw : wordOkS w := hwords w (List.mem_cons_self w ws)
    have hws : ∀ x ∈ ws, wordOkS x := fun x hx => hwords x (List.mem_cons_of_mem w hx)
    have hcurw : ∀ x ∈ cur ++ [w], wordOkS x := by
      intro x hx
      rcases List.mem_append.mp hx with h1 | h1
      · exact hcur x h1
      · rcases List.mem_singleton.mp h1 with rfl
        exact hw
    rw [show wrapAux cw maxW cur (w :: ws) =
        (if widthOf cw (pyStrip (joinSpace (cur ++ [w]))) ≤ maxW then
          wrapAux cw maxW (cur ++ [w]) ws
        else
          (if cur.isEmpty then [] else [joinSpace cur]) ++ wrapAux cw maxW [w] ws) from by
      simp [wrapAux]]
    rcases List.mem_cons.mp hu with rfl | hu2
    · have hnofit : ¬ (widthOf cw (pyStrip (joinSpace (cur ++ [u]))) ≤ maxW) := by
        rw [pyStrip_joinSpace (cur ++ [u]) (by simp) hcurw]
        have := widthOf_le_joinSpace cw hcw (cur ++ [u]) u
          (List.mem_append.mpr (Or.inr (List.mem_singleton.mpr rfl)))
        intro hle
        linarith
      rw [if_neg hnofit]
      exact List.mem_append.mpr (Or.inr (wrapAux_big_head cw hcw maxW u hw hbig ws hws))
    · by_cases hfit : widthOf cw (pyStrip (joinSpace (cur ++ [w]))) ≤ maxW
      · rw [if_pos hfit]
        exact ih (cur ++ [w]) hcurw hws u hu2 hbig
      · rw [if_neg hfit]
        exact List.mem_append.mpr (Or.inr (ih [w] (by
          intro x hx
          rcases List.mem_singleton.mp hx with rfl
          exact hw) hws u hu2 hbig))

/-- Claim C4: `wrap_text` never returns an empty sequence; empty or
whitespace-only input yields exactly one empty line; the concatenation of the
words of the returned lines reproduces the whitespace-split word sequence of
the input; and a single word wider than the bound occupies a line by itself
(it appears verbatim among the returned lines). -/
theorem wrap_text_spec (cw : Char → ℚ) (hcw : ∀ c, 0 ≤ cw c) (text : String)
    (max_width : ℚ) :
    wrap_text cw text max_width ≠ [] ∧
    (pySplitStr text = [] → wrap_text cw text max_width = [""]) ∧
    ((wrap_text cw text max_width).map pySplitStr).flatten = pySplitStr text ∧
    (∀ w ∈ pySplitStr text, max_width < widthOf cw w →
      w ∈ wrap_text cw text max_width) := by
  have hwords := pySplitStr_words text
  have hflat := wrapAux_flatten cw max_width (pySplitStr text) [] (by simp) hwords
  rw [ite_self, List.nil_append] at hflat
  have heq : wrap_text cw text max_width =
      (if (wrapAux cw max_width [] (pySplitStr text)).isEmpty then [""]
       else wrapAux cw max_width [] (pySplitStr text)) := rfl
  refine ⟨?_, ?_, ?_, ?_⟩
  · rw [heq]
    split
    · simp
    · rename_i hlines
      simpa using hlines
  · intro hempty
    rw [heq, hempty]
    rfl
  · rw [heq]
    split
    · rename_i hlines
      rw [List.isEmpty_iff] at hlines
      rw [hlines] at hflat
      simp only [List.map_nil, List.flatten] at hflat
      rw [← hflat]
      rfl
    · exact hflat
  · intro w hw hbig
    have hmem := wrapAux_big_mem cw hcw max_width (pySplitStr text) [] (by simp)
      hwords w hw hbig
    rw [heq]
    split
    · rename_i hlines
      rw [List.isEmpty_iff] at hlines
      rw [hlines] at hmem
      cases hmem
    · exact hmem

/-- Witness for `wrap_text_spec` at unit char widths: `"ab cd"`, bound 2,
evaluated through the word-membership clause for the over-wide word `"ab"`. -/
theorem wrap_text_spec_witness :
    "ab" ∈ wrap_text exUnitWidth "ab cd" 1 :=
  (wrap_text_spec exUnitWidth (fun _ => by norm_num [exUnitWidth]) "ab cd" 1).2.2.2
    "ab" (by decide)
    (by
      rw [show widthOf exUnitWidth "ab" = (("ab".data.map exUnitWidth).sum) from rfl,
        show "ab".data = ['a', 'b'] from rfl]
      norm_num [exUnitWidth])

/-! ## Claim C6 (QR narrowing of grid rows) -/

/-- Claim C6 as frozen is false on the code: on a letter-size label with a
drawn QR code, a two-row text grid started at cursor 70 issues a page break
on its first row (placed at the top of the continuation page at full width)
and then lays out its second row — also on the continuation page — with the
QR-narrowed width 414 = 540 − (qr_side + 0.25in), because the narrowing test
compares only the cursor height, not the page. -/
theorem C6_counterexample :
    ((render_items_grid_text exSixWidth exSixWidth exGridCtx
        (List.replicate 8 exGridItem) 70).1.map fun r => (r.width, r.broke)) =
      [((540 : ℚ), true), (414, false)] ∧
    (414 : ℚ) = 540 - (qr_side + 0.25 * inchQ) := by
  constructor
  · norm_num [render_items_grid_text, gridLoop, exGridCtx, drawLabelCtx, exGridItem,
      rowAvailableWidth, measure_cell_text, rowMax, qr_side, inchQ, gutterQ, padQ,
      pyStrip, pyStripL, exSixWidth, List.replicate]
  · norm_num [qr_side, inchQ]

/-- Any row whose width field is computed by `rowAvailableWidth` at its
pre-placement cursor obeys the narrowing rule. -/
theorem rowAvailableWidth_rule (ctx : GridCtx) (y : ℚ) (b : Bool) (yp : ℚ) :
    RowNarrowRule ctx ⟨y, rowAvailableWidth ctx y, b, yp⟩ := by
  have hz : qr_side + 0.25 * inchQ ≠ 0 := by norm_num [qr_side, inchQ]
  constructor
  · rcases hqb : ctx.qr_bottom_y with _ | qb
    · exact Or.inl (by simp [rowAvailableWidth, hqb])
    · by_cases hy : y > qb
      · exact Or.inr (by simp [rowAvailableWidth, hqb, hy])
      · exact Or.inl (by simp [rowAvailableWidth, hqb, hy])
  · rcases hqb : ctx.qr_bottom_y with _ | qb
    · simp only [rowAvailableWidth, hqb]
      constructor
      · intro habs
        exact absurd (by linarith : qr_side + 0.25 * inchQ = 0) hz
      · rintro ⟨qb, hqb2, _⟩
        cases hqb2
    · by_cases hy : y > qb
      · simp only [rowAvailableWidth, hqb, if_pos hy]
        constructor
        · intro _
          exact ⟨qb, rfl, hy⟩
        · intro _
          trivial
      · simp only [rowAvailableWidth, hqb, if_neg hy]
        constructor
        · intro habs
          exact absurd (by linarith : qr_side + 0.25 * inchQ = 0) hz
        · rintro ⟨qb2, hqb2, hlt⟩
          injection hqb2 with hqq
          subst hqq
          exact absurd hlt hy

/-- Every row the shared grid loop lays out obeys the narrowing rule. -/
theorem gridLoop_width_rule (ctx : GridCtx) (cols : Nat) (hcols : 0 < cols)
    (measure : ToteItem → ℚ → ℚ) :
    ∀ items y, ∀ r ∈ (gridLoop ctx cols hcols measure items y).1,
      RowNarrowRule ctx r := by
  intro items y
  induction items, y using gridLoop.induct ctx cols hcols measure with
  | case1 y =>
    intro r hr
    simp [gridLoop] at hr
  | case2 it rest y items row_items raww colw rhs rh y1 y2 ih =>
    intro r hr
    simp only [gridLoop] at hr
    rcases List.mem_cons.mp hr with rfl | hr2
    · exact rowAvailableWidth_rule ctx y _ _
    · exact ih r hr2

/-- Claim C6 (amended): with a drawn QR code, a grid row's available width is
narrowed by the QR side plus its gap exactly when the cursor value just
before placing the row (prior to any page break the row itself triggers) is
strictly above the bottom of the reserved QR region — regardless of which
page the row lands on; rows at or below that height use the full content
width. This holds for both the text grid and the thumbs grid. -/
theorem grid_rows_narrow_rule (cw10 cw9 : Char → ℚ) (thumbAvail : String → Bool)
    (ctx : GridCtx) (items : List ToteItem) (y : ℚ) :
    (∀ r ∈ (render_items_grid_text cw10 cw9 ctx items y).1, RowNarrowRule ctx r) ∧
    (∀ r ∈ (render_items_grid_thumbs cw10 cw9 thumbAvail ctx items y).1,
      RowNarrowRule ctx r) := by
  constructor
  · intro r hr
    unfold render_items_grid_text at hr
    split at hr
    · cases hr
    · exact gridLoop_width_rule ctx 4 (by omega) (measure_cell_text cw10 cw9) items y r hr
  · intro r hr
    unfold render_items_grid_thumbs at hr
    split at hr
    · cases hr
    · exact gridLoop_width_rule ctx 5 (by omega)
        (measure_cell_thumbs cw10 cw9 thumbAvail) items y r hr

/-! ## Claim C7 (parent/child links after `read_csvs`) -/

/-- A `none` lookup means the key is absent. -/
theorem lookupTote_none_iff (m : Totes) (k : String) :
    lookupTote m k = none ↔ ∀ kv ∈ m, kv.1 ≠ k := by
  unfold lookupTote
  rw [Option.map_eq_none', List.find?_eq_none]
  constructor
  · intro h kv hkv
    simpa using h kv hkv
  · intro h kv hkv
    simpa using h kv hkv

/-- A successful lookup exhibits a member with that key. -/
theorem lookupTote_mem (m : Totes) (k : String) (t : Tote)
    (h : lookupTote m k = some t) : (k, t) ∈ m := by
  unfold lookupTote at h
  rw [Option.map_eq_some'] at h
  obtain ⟨kv, hfind, hsnd⟩ := h
  have hmem := List.mem_of_find?_eq_some hfind
  have hkey : kv.1 = k := by simpa using List.find?_some hfind
  have : kv = (k, t) := by
    cases kv
    simp only at hkey hsnd
    rw [hkey, hsnd]
  rw [← this]
  exact hmem

/-- With unique keys, membership determines the lookup. -/
theorem mem_lookupTote (m : Totes) (hnd : (m.map Prod.fst).Nodup)
    (kv : String × Tote) (h : kv ∈ m) : lookupTote m kv.1 = some kv.2 := by
  induction m with
  | nil => cases h
  | cons x rest ih =>
    rcases List.mem_cons.mp h with rfl | h2
    · unfold lookupTote
      rw [List.find?_cons_of_pos _ (by simp)]
      rfl
    · have hx : x.1 ≠ kv.1 := by
        intro heq
        have : kv.1 ∈ rest.map Prod.fst := List.mem_map.mpr ⟨kv, h2, rfl⟩
        rw [List.map_cons, List.nodup_cons] at hnd
        exact hnd.1 (heq ▸ this)
      unfold lookupTote
      rw [List.find?_cons_of_neg _ (by simp [hx])]
      exact ih (by rw [List.map_cons, List.nodup_cons] at hnd; exact hnd.2) h2

/-- Storing at a present key makes the lookup return the stored tote. -/
theorem lookup_store_self (m : Totes) (k : String) (t : Tote)
    (h : lookupTote m k ≠ none) : lookupTote (storeTote m k t) k = some t := by
  induction m with
  | nil => exact absurd rfl h
  | cons x rest ih =>
    by_cases hx : x.1 = k
    · unfold storeTote lookupTote
      rw [List.map_cons, if_pos hx, List.find?_cons_of_pos _ (by simp)]
      rfl
    · have hrest : lookupTote rest k ≠ none := by
        unfold lookupTote at h ⊢
        rw [List.find?_cons_of_neg _ (by simp [hx])] at h
        exact h
      unfold storeTote lookupTote
      rw [List.map_cons, if_neg hx, List.find?_cons_of_neg _ (by simp [hx])]
      exact ih hrest

/-- Storing at one key leaves other lookups unchanged. -/
theorem lookup_store_other (m : Totes) (k : String) (t : Tote) (k' : String)
    (h : k' ≠ k) : lookupTote (storeTote m k t) k' = lookupTote m k' := by
  induction m with
  | nil => rfl
  | cons x rest ih =>
    by_cases hx : x.1 = k
    · unfold storeTote lookupTote
      rw [List.map_cons, if_pos hx, List.find?_cons_of_neg _ (by simp [Ne.symm h]),
        List.find?_cons_of_neg _ (by simp [hx ▸ Ne.symm h])]
      exact ih
    · by_cases hk' : x.1 = k'
      · unfold storeTote lookupTote
        rw [List.map_cons, if_neg hx, List.find?_cons_of_pos _ (by simp [hk']),
          List.find?_cons_of_pos _ (by simp [hk'])]
      · unfold storeTote lookupTote
        rw [List.map_cons, if_neg hx, List.find?_cons_of_neg _ (by simp [hk']),
          List.find?_cons_of_neg _ (by simp [hk'])]
        exact ih

/-- Membership in a stored map. -/
theorem mem_storeTote (m : Totes) (k : String) (t : Tote) (kv' : String × Tote) :
    kv' ∈ storeTote m k t ↔ ∃ kv ∈ m, kv' = (if kv.1 = k then (k, t) else kv) := by
  unfold storeTote
  rw [List.mem_map]
  constructor
  · rintro ⟨kv, hkv, rfl⟩
    exact ⟨kv, hkv, rfl⟩
  · rintro ⟨kv, hkv, rfl⟩
    exact ⟨kv, hkv, rfl⟩

/-- Splitting a successful `Except` bind. -/
theorem except_bind_ok {α β : Type} (e : Except Unit α) (f : α → Except Unit β)
    (b : β) (h : e >>= f = Except.ok b) :
    ∃ a, e = Except.ok a ∧ f a = Except.ok b := by
  cases e with
  | error err => simp [Bind.bind, Except.bind] at h
  | ok a => exact ⟨a, rfl, by simpa [Bind.bind, Except.bind] using h⟩

/-- A successful `primaryUpdate` keeps the tote id and the children list. -/
theorem primaryUpdate_keeps (hi : List (String × Nat)) (row : List String)
    (t t2 : Tote) (h : primaryUpdate hi row t = Except.ok t2) :
    t2.tote_id = t.tote_id ∧ t2.children = t.children := by
  unfold primaryUpdate at h
  obtain ⟨v1, _, h⟩ := except_bind_ok _ _ _ h
  obtain ⟨v2, _, h⟩ := except_bind_ok _ _ _ h
  obtain ⟨v3, _, h⟩ := except_bind_ok _ _ _ h
  obtain ⟨v4, _, h⟩ := except_bind_ok _ _ _ h
  obtain ⟨v5, _, h⟩ := except_bind_ok _ _ _ h
  obtain ⟨v6, _, h⟩ := except_bind_ok _ _ _ h
  obtain ⟨v7, _, h⟩ := except_bind_ok _ _ _ h
  have h3 := Except.ok.inj h
  rw [← h3, add_item_tote_id, add_item_children]
  exact ⟨rfl, rfl⟩

/-- A successful `emptyUpdate` keeps the tote id and the children list. -/
theorem emptyUpdate_keeps (hi : List (String × Nat)) (row : List String)
    (t t2 : Tote) (h : emptyUpdate hi row t = Except.ok t2) :
    t2.tote_id = t.tote_id ∧ t2.children = t.children := by
  unfold emptyUpdate at h
  obtain ⟨v1, _, h⟩ := except_bind_ok _ _ _ h
  obtain ⟨v2, _, h⟩ := except_bind_ok _ _ _ h
  have h3 := Except.ok.inj h
  rw [← h3]
  exact ⟨rfl, rfl⟩

/-- Helper: `getOrCreate` preserves the ingestion invariant and returns a tote whose
id is the requested key and whose children are empty; the key is present
afterwards. -/
theorem getOrCreate_spec (m : Totes) (tid : String) (hinv : IngestInv m) :
    IngestInv (getOrCreate m tid).1 ∧ (getOrCreate m tid).2.tote_id = tid ∧
    (getOrCreate m tid).2.children = [] ∧
    lookupTote (getOrCreate m tid).1 tid ≠ none := by
  obtain ⟨hnd, hmem⟩ := hinv
  unfold getOrCreate
  cases hlook : lookupTote m tid with
  | some t =>
    have hm := lookupTote_mem m tid t hlook
    refine ⟨⟨hnd, hmem⟩, (hmem (tid, t) hm).1, (hmem (tid, t) hm).2, ?_⟩
    simp [hlook]
  | none =>
    have hnotin : tid ∉ m.map Prod.fst := by
      intro hin
      obtain ⟨kv, hkv, hfst⟩ := List.mem_map.mp hin
      exact (lookupTote_none_iff m tid).mp hlook kv hkv hfst
    refine ⟨⟨?_, ?_⟩, rfl, rfl, ?_⟩
    · rw [List.map_append]
      simp only [List.map_cons, List.map_nil]
      rw [List.nodup_append]
      exact ⟨hnd, List.nodup_singleton tid, by
        rw [List.disjoint_singleton]
        exact hnotin⟩
    · intro kv hkv
      rcases List.mem_append.mp hkv with h1 | h1
      · exact hmem kv h1
      · rcases List.mem_singleton.mp h1 with rfl
        exact ⟨rfl, rfl⟩
    · have hfind : List.find? (fun kv => kv.1 == tid) m = none := by
        have := hlook
        unfold lookupTote at this
        exact Option.map_eq_none'.mp this
      unfold lookupTote
      rw [List.find?_append, hfind, List.find?_cons_of_pos _ (by simp)]
      simp [Option.or]

/-- Helper: `storeTote` preserves the ingestion invariant when the stored tote's id
is the key and its children are empty. -/
theorem storeTote_inv (m : Totes) (tid : String) (t2 : Tote) (hinv : IngestInv m)
    (hid : t2.tote_id = tid) (hch : t2.children = []) :
    IngestInv (storeTote m tid t2) := by
  obtain ⟨hnd, hmem⟩ := hinv
  constructor
  · rw [storeTote_keys]
    exact hnd
  · intro kv' hkv'
    obtain ⟨kv, hkv, heq⟩ := (mem_storeTote m tid t2 kv').mp hkv'
    by_cases hx : kv.1 = tid
    · rw [heq, if_pos hx]
      exact ⟨hid, hch⟩
    · rw [heq, if_neg hx]
      exact hmem kv hkv

/-- Helper: `processRow` preserves the ingestion invariant. -/
theorem processRow_inv (st : PState) (row : List String) (st' : PState)
    (h : processRow st row = Except.ok st') (hinv : IngestInv st.totes) :
    IngestInv st'.totes := by
  unfold processRow at h
  split at h
  · cases h
    exact hinv
  · split at h
    · cases h
      exact hinv
    · split at h
      · cases h
        exact hinv
      · cases h
        exact hinv
      · split at h
        · cases h
          exact hinv
        · simp only [processData] at h
          split at h
          · -- PRIMARY
            split at h
            · cases h
              exact hinv
            · rename_i tid _
              obtain ⟨hgc, hgid, hgch, hglook⟩ := getOrCreate_spec st.totes tid hinv
              split at h
              · exact absurd h (by simp)
              · rename_i t2 hupd
                cases h
                obtain ⟨hid2, hch2⟩ := primaryUpdate_keeps _ _ _ _ hupd
                exact storeTote_inv _ tid t2 hgc (hid2.trans hgid) (hch2.trans hgch)
          · -- EMPTY
            split at h
            · cases h
              exact hinv
            · rename_i tid _
              split at h
              · cases h
                exact hinv
              · rename_i t hlook
                split at h
                · exact absurd h (by simp)
                · rename_i t2 hupd
                  cases h
                  obtain ⟨hid2, hch2⟩ := emptyUpdate_keeps _ _ _ _ hupd
                  have hm := lookupTote_mem st.totes tid t hlook
                  obtain ⟨hidt, hcht⟩ := hinv.2 (tid, t) hm
                  exact storeTote_inv _ tid t2 hinv (hid2.trans hidt) (hch2.trans hcht)
          · cases h
            exact hinv

/-- Fold invariants through `foldlM` over `Except`. -/
theorem foldlM_except_inv {σ α : Type} (P : σ → Prop) (f : σ → α → Except Unit σ)
    (hstep : ∀ s a s', P s → f s a = Except.ok s' → P s') :
    ∀ (l : List α) s s', P s → List.foldlM f s l = Except.ok s' → P s' := by
  intro l
  induction l with
  | nil =>
    intro s s' hP h
    have h2 : (Except.ok s : Except Unit σ) = Except.ok s' := h
    rw [← Except.ok.inj h2]
    exact hP
  | cons a l ih =>
    intro s s' hP h
    rw [List.foldlM_cons] at h
    obtain ⟨s1, h1, h2⟩ := except_bind_ok _ _ _ h
    exact ih s1 s' (hstep s a s1 hP h1) h2

/-- The ingestion pass establishes the ingestion invariant. -/
theorem ingest_inv (files : List (List (List String))) (m : Totes)
    (h : ingest files = Except.ok m) : IngestInv m := by
  unfold ingest at h
  refine foldlM_except_inv IngestInv ingestFile ?_ files [] m
    ⟨List.nodup_nil, by simp⟩ h
  intro m1 rows m2 hP hstep
  unfold ingestFile at hstep
  cases hfold : List.foldlM processRow
      { totes := m1, mode := Mode.UNKNOWN, hindex := [] } rows with
  | error e =>
    rw [hfold] at hstep
    simp [Except.map] at hstep
  | ok st' =>
    rw [hfold] at hstep
    have hm2 : m2 = st'.totes := by
      simp only [Except.map] at hstep
      exact (Except.ok.inj hstep).symm
    rw [hm2]
    exact foldlM_except_inv (fun st => IngestInv st.totes) processRow
      (fun s a s' hx hy => processRow_inv s a s' hy hx) rows
      { totes := m1, mode := Mode.UNKNOWN, hindex := [] } st' hP hfold

/-- Helper: `linkStep` preserves the link invariant. -/
theorem linkStep_inv (m0 : Totes) (hinv0 : IngestInv m0) (acc : Totes)
    (entry : String × Tote) (hentry : entry ∈ m0) (hL : LinkInv m0 acc) :
    LinkInv m0 (linkStep acc entry) := by
  obtain ⟨hkeys, hids, hpar, hch⟩ := hL
  cases hp : entry.2.parent_id with
  | none =>
    have hred : linkStep acc entry = acc := by
      unfold linkStep
      rw [hp]
    rw [hred]
    exact ⟨hkeys, hids, hpar, hch⟩
  | some pid =>
    have hred : linkStep acc entry =
        (if pid = "" then acc
         else
           match lookupTote acc pid with
           | none => acc
           | some parent =>
             if entry.1 ∈ parent.children then acc
             else storeTote acc pid
               { parent with children := parent.children ++ [entry.1] }) := by
      unfold linkStep
      rw [hp]
    rw [hred]
    by_cases hpid : pid = ""
    · rw [if_pos hpid]
      exact ⟨hkeys, hids, hpar, hch⟩
    · rw [if_neg hpid]
      cases hlook : lookupTote acc pid with
      | none => exact ⟨hkeys, hids, hpar, hch⟩
      | some parent =>
        show LinkInv m0 (if entry.1 ∈ parent.children then acc
          else storeTote acc pid { parent with children := parent.children ++ [entry.1] })
        by_cases hmem : entry.1 ∈ parent.children
        · rw [if_pos hmem]
          exact ⟨hkeys, hids, hpar, hch⟩
        · rw [if_neg hmem]
          have hparmem : (pid, parent) ∈ acc := lookupTote_mem acc pid parent hlook
          have hparid : parent.tote_id = pid := hids (pid, parent) hparmem
          refine ⟨?_, ?_, ?_, ?_⟩
          · rw [storeTote_keys]
            exact hkeys
          · intro kv' hkv'
            obtain ⟨kv, hkv, heq⟩ := (mem_storeTote _ _ _ kv').mp hkv'
            by_cases hx : kv.1 = pid
            · rw [heq, if_pos hx]
              exact hparid
            · rw [heq, if_neg hx]
              exact hids kv hkv
          · intro k
            by_cases hk : k = pid
            · have hne : lookupTote acc pid ≠ none := by
                rw [hlook]
                simp
              rw [hk, lookup_store_self acc pid _ hne, ← hpar pid, hlook]
              rfl
            · rw [lookup_store_other _ _ _ _ hk]
              exact hpar k
          · intro kv' hkv'
            obtain ⟨kv, hkv, heq⟩ := (mem_storeTote _ _ _ kv').mp hkv'
            by_cases hx : kv.1 = pid
            · rw [heq, if_pos hx]
              obtain ⟨hnodup, hprop⟩ := hch (pid, parent) hparmem
              constructor
              · show (parent.children ++ [entry.1]).Nodup
                rw [List.nodup_append]
                exact ⟨hnodup, List.nodup_singleton _, by
                  rw [List.disjoint_singleton]
                  exact hmem⟩
              · intro cid hcid
                rcases List.mem_append.mp hcid with h1 | h1
                · exact hprop cid h1
                · rcases List.mem_singleton.mp h1 with rfl
                  refine ⟨entry.2, ?_, ?_⟩
                  · exact mem_lookupTote m0 hinv0.1 entry hentry
                  · rw [hp]
            · rw [heq, if_neg hx]
              exact hch kv hkv

/-- Folding `linkStep` over entries of the pre-link map preserves the link
invariant. -/
theorem foldl_linkStep_inv (m0 : Totes) (hinv0 : IngestInv m0) :
    ∀ (l : List (String × Tote)) (acc : Totes), (∀ e ∈ l, e ∈ m0) →
      LinkInv m0 acc → LinkInv m0 (List.foldl linkStep acc l) := by
  intro l
  induction l with
  | nil =>
    intro acc _ hL
    exact hL
  | cons e l ih =>
    intro acc hsub hL
    rw [List.foldl_cons]
    exact ih (linkStep acc e) (fun x hx => hsub x (List.mem_cons_of_mem e hx))
      (linkStep_inv m0 hinv0 acc e (hsub e (List.mem_cons_self e l)) hL)

/-- Claim C7: after `read_csvs`, the model's keys are exactly the ingested
keys (link building synthesizes no placeholder container), every container's
children list is duplicate-free, and each recorded child id denotes a
container of the model whose parent id is the recording container's id. -/
theorem read_csvs_children_valid (files : List (List (List String))) (m0 m : Totes)
    (h0 : ingest files = Except.ok m0) (h : read_csvs files = Except.ok m) :
    m.map Prod.fst = m0.map Prod.fst ∧
    ∀ kv ∈ m, kv.2.children.Nodup ∧
      ∀ cid ∈ kv.2.children, ∃ kv2 ∈ m, kv2.2.tote_id = cid ∧
        kv2.2.parent_id = some kv.2.tote_id := by
  have hinv0 : IngestInv m0 := ingest_inv files m0 h0
  have hm : m = buildLinks m0 := by
    rw [read_csvs, h0] at h
    simp only [Except.map] at h
    exact (Except.ok.inj h).symm
  have hstart : LinkInv m0 m0 := by
    refine ⟨rfl, fun kv hkv => (hinv0.2 kv hkv).1, fun k => rfl, ?_⟩
    intro kv hkv
    rw [(hinv0.2 kv hkv).2]
    exact ⟨List.nodup_nil, by simp⟩
  have hL : LinkInv m0 m := by
    rw [hm]
    exact foldl_linkStep_inv m0 hinv0 m0 m0 (fun e he => he) hstart
  obtain ⟨hkeys, hids, hpar, hch⟩ := hL
  refine ⟨hkeys, ?_⟩
  intro kv hkv
  refine ⟨(hch kv hkv).1, ?_⟩
  intro cid hcid
  obtain ⟨tn, hlook0, hpn⟩ := (hch kv hkv).2 cid hcid
  have hparcid := hpar cid
  rw [hlook0] at hparcid
  cases hlookm : lookupTote m cid with
  | none =>
    rw [hlookm] at hparcid
    simp at hparcid
  | some t' =>
    rw [hlookm] at hparcid
    have hpar' : t'.parent_id = tn.parent_id := by
      simpa using hparcid
    refine ⟨(cid, t'), lookupTote_mem m cid t' hlookm, ?_, ?_⟩
    · exact hids (cid, t') (lookupTote_mem m cid t' hlookm)
    · rw [hpar', hpn, hids kv hkv]

/-- Witness for `read_csvs_children_valid`: on `exLinkFiles` (whose parent
column repeats `T2` under parent `T1`) the linked model keeps exactly the
ingested keys. -/
theorem read_csvs_children_valid_witness :
    ((read_csvs exLinkFiles).toOption.getD []).map Prod.fst =
      ((ingest exLinkFiles).toOption.getD []).map Prod.fst :=
  (read_csvs_children_valid exLinkFiles
    ((ingest exLinkFiles).toOption.getD [])
    ((read_csvs exLinkFiles).toOption.getD []) rfl rfl).1

end PrintLabels
